import Mathlib

/-!
# binary-include: symbol naming and code emission

A shallow embedding of `src/packer.c` and of the helpers of `src/main.c` (`checkFiletype`,
`getGuard`, the default configuration and the loop over the files), together with theorems
about the symbol namer and the emitter.

Conventions of the embedding.

* A C string is the list of its characters before the terminating NUL; one `Char` stands for
  one byte.
* A byte read by `fgetc` is a natural number (0..255); end of file is the empty stream.
* An output stream is a `Sink`: the text written, the room left on the device and the error
  indicator. A null stream pointer is `none`.
* `format.h` is not part of the sources at hand: its constants are the fields of `Format`.
* `FILENAME_MAX` comes from the C library and is a parameter (`fmax`).
* The loop counters `i`, `n` (`int`) and `j` (`size_t`) are natural numbers. The `int`
  counters of `writeDataNumerical` and `writeDataText` run up to `length` (`size_t`), so the
  loops of the embedding are those of the C code for `length < 2 ^ 31`, where `i++` and `n++`
  do not overflow; the theorems on the claims state this bound wherever the length is
  not fixed. The conversion `%d` of `length` keeps the 32-bit reading (`fmtLength`).
-/

namespace BinaryInclude

/-! ## Configuration (`config.h`) -/

/-- The `NumberFormat` enumeration. -/
inductive NumberFormat where
  | F_HEXADECIMAL
  | F_DECIMAL
  deriving DecidableEq, Repr

/-- The `Config` structure. -/
structure Config where
  format : NumberFormat
  createMacro : Bool
  camelCase : Bool
  allman : Bool
  text : Bool
  singleLine : Bool
  warning : Bool
  deriving DecidableEq, Repr

/-- The constants of `format.h`, which the functions of `packer.c` use. Every string constant is
taken as plain text (no conversion specification inside); `NAME_COMMENT` is a format with the
file name as its only argument and is given as the function from the name to the formatted
text. -/
structure Format where
  NAME_COMMENT : List Char → List Char
  SIZE_TYPE : List Char
  SIZE_SUFFIX : List Char
  SIZE_SUFFIX_CAMEL : List Char
  SIZE_SUFFIX_MACRO : List Char
  DATA_TYPE : List Char
  DATA_INDENT : List Char
  DATA_PER_LINE : Nat

/-! ## Characters -/

/-- The test `(c >= 'a' && c <= 'z') || (c >= 'A' && c <= 'Z') || (c >= '0' && c <= '9')`
of the three `setupSymbol` functions. -/
def isAlnum (c : Char) : Bool :=
  (decide ('a' ≤ c) && decide (c ≤ 'z')) ||
  (decide ('A' ≤ c) && decide (c ≤ 'Z')) ||
  (decide ('0' ≤ c) && decide (c ≤ '9'))

/-- The test `c >= '0' && c <= '9'`. -/
def isDigit (c : Char) : Bool :=
  decide ('0' ≤ c) && decide (c ≤ '9')

/-- The function `tolower` of the C locale. -/
def tolower (c : Char) : Char :=
  if 'A' ≤ c ∧ c ≤ 'Z' then Char.ofNat (c.toNat + 32) else c

/-- The function `toupper` of the C locale. -/
def toupper (c : Char) : Char :=
  if 'a' ≤ c ∧ c ≤ 'z' then Char.ofNat (c.toNat - 32) else c

/-! ## Symbol namer (`packer.c`, lines 19 to 112) -/

/-- The statement `if (symbol[0] >= '0' && symbol[0] <= '9') symbol[0] = '_';`. The first
character of an empty symbol is the terminator, which is not a digit. -/
def fixLeadingDigit : List Char → List Char
  | [] => []
  | c :: cs => if isDigit c then '_' :: cs else c :: cs

/-- The loop of `setupSymbolSnake`: the characters stored from index `j` on, while reading the
rest of the name. The test `j == FILENAME_MAX - 1` is written `j + 1 = fmax`. -/
def snakeLoop (fmax : Nat) : List Char → Nat → List Char
  | [], _ => []
  | c :: rest, j =>
    if j + 1 = fmax then []
    else (if isAlnum c then tolower c else '_') :: snakeLoop fmax rest (j + 1)

/-- The function `setupSymbolSnake`: the content of `symbol` on return. -/
def setupSymbolSnake (fmax : Nat) (name : List Char) : List Char :=
  fixLeadingDigit (snakeLoop fmax name 0)

/-- The loop of `setupSymbolCamel`, with the flag `nextUpper`. -/
def camelLoop (fmax : Nat) : List Char → Nat → Bool → List Char
  | [], _, _ => []
  | c :: rest, j, nextUpper =>
    if j + 1 = fmax then []
    else if isAlnum c then
      (if nextUpper then toupper c else tolower c) :: camelLoop fmax rest (j + 1) false
    else camelLoop fmax rest j true

/-- The function `setupSymbolCamel`: the content of `symbol` on return. -/
def setupSymbolCamel (fmax : Nat) (name : List Char) : List Char :=
  fixLeadingDigit (camelLoop fmax name 0 false)

/-- The loop of `setupSymbolMacro`. -/
def macroLoop (fmax : Nat) : List Char → Nat → List Char
  | [], _ => []
  | c :: rest, j =>
    if j + 1 = fmax then []
    else (if isAlnum c then toupper c else '_') :: macroLoop fmax rest (j + 1)

/-- The function `setupSymbolMacro`: the content of `symbolMacro` on return (no fix of a
leading digit is made there). -/
def setupSymbolMacro (fmax : Nat) (name : List Char) : List Char :=
  macroLoop fmax name 0

/-! ## Streams -/

/-- An output stream (`FILE *` opened for writing): the text written so far, the number of
characters the device still accepts (`none`: no limit) and the error indicator read by
`ferror`. -/
structure Sink where
  buf : List Char
  room : Option Nat
  err : Bool
  deriving DecidableEq, Repr

/-- Writing text to a stream (`fputs`, `fputc`, `fprintf`): the text is appended; when the
device cannot take all of it, what fits is appended and the error indicator is set. -/
def Sink.puts (s : Sink) (t : List Char) : Sink :=
  match s.room with
  | none => { s with buf := s.buf ++ t }
  | some r =>
    if t.length ≤ r then { s with buf := s.buf ++ t, room := some (r - t.length) }
    else { buf := s.buf ++ t.take r, room := some 0, err := true }

/-- An input file as `process` finds it: the value `length` obtained from `ftell` at the end
of the file, and the bytes `fgetc` delivers from the start of the file. -/
structure InputFile where
  length : Nat
  bytes : List Nat
  deriving DecidableEq, Repr

/-! ## Number formatting (`fprintf`) -/

/-- The conversion `%d` of a byte value (a non-negative `int`). -/
def fmtDec (byte : Nat) : List Char := Nat.toDigits 10 byte

/-- The conversion `0x%02x`: at least two lower-case hexadecimal digits. -/
def fmtHex (byte : Nat) : List Char :=
  let d := Nat.toDigits 16 byte
  '0' :: 'x' :: (if d.length < 2 then '0' :: d else d)

/-- The conversion `%d` applied to `length`: the value is read as a 32-bit `int`. -/
def fmtLength (length : Nat) : List Char :=
  let m := length % 2 ^ 32
  if m < 2 ^ 31 then Nat.toDigits 10 m else '-' :: Nat.toDigits 10 (2 ^ 32 - m)

/-! ## Data emission (`packer.c`, lines 114 to 210) -/

/-- The `switch (config.format)` of `writeDataNumerical`. -/
def fmtByte (config : Config) (byte : Nat) : List Char :=
  match config.format with
  | NumberFormat.F_DECIMAL => fmtDec byte
  | NumberFormat.F_HEXADECIMAL => fmtHex byte

/-- The loop of `writeDataNumerical`, with `k = length - i` iterations left, the flag `first`
and the counter `n`. The result is the returned value, the unread input and the stream. The
counters `i` and `n` are `int` in the C code and natural numbers here: the two agree for
`length < 2 ^ 31`, the range of the theorems. -/
def numericalLoop (fmt : Format) (config : Config) :
    Nat → Bool → Nat → List Nat → Sink → Bool × List Nat × Sink
  | 0, _, _, input, output => (true, input, output)
  | _ + 1, _, _, [], output => (false, [], output)
  | k + 1, first, n, byte :: input, output =>
    let sep : Sink × Nat :=
      if !first then
        let o := output.puts [',']
        if !config.singleLine && decide (n ≥ fmt.DATA_PER_LINE) then
          (o.puts ('\n' :: fmt.DATA_INDENT), 0)
        else
          (o.puts [' '], n)
      else (output, n)
    if !first && sep.1.err then (false, input, sep.1)
    else
      let o := sep.1.puts (fmtByte config byte)
      if o.err then (false, input, o)
      else numericalLoop fmt config k false (sep.2 + 1) input o

/-- The function `writeDataNumerical`. -/
def writeDataNumerical (fmt : Format) (config : Config) (input : List Nat) (output : Sink)
    (length : Nat) : Bool × List Nat × Sink :=
  numericalLoop fmt config length true 0 input output

/-- The `switch (byte)` of `writeDataText`: the text written for one byte. -/
def escapeByte (byte : Nat) : List Char :=
  if byte = 10 then ['\\', 'n']
  else if byte = 13 then ['\\', 'r']
  else if byte = 7 then ['\\', 'a']
  else if byte = 8 then ['\\', 'b']
  else if byte = 12 then ['\\', 'f']
  else if byte = 9 then ['\\', 't']
  else if byte = 11 then ['\\', 'v']
  else if byte = 34 then ['\\', '\x22']
  else if byte = 92 then ['\\', '\\']
  else [Char.ofNat byte]

/-- The loop of `writeDataText`, with `k = length - i` iterations left and the flag
`newLine`. The counter `i` is `int` in the C code and a natural number here: the two agree
for `length < 2 ^ 31`, the range of the theorems. -/
def textLoop (fmt : Format) (config : Config) :
    Nat → Bool → List Nat → Sink → Bool × List Nat × Sink
  | 0, _, input, output => (true, input, output)
  | _ + 1, _, [], output => (false, [], output)
  | k + 1, newLine, byte :: input, output =>
    let newLine1 : Bool := if byte = 10 ∨ byte = 13 then true else newLine
    let o := output.puts (escapeByte byte)
    if o.err then (false, input, o)
    else if !config.singleLine && newLine1 then
      let o2 := o.puts ('\x22' :: '\n' :: (fmt.DATA_INDENT ++ ['\x22']))
      if o2.err then (false, input, o2)
      else textLoop fmt config k false input o2
    else textLoop fmt config k newLine1 input o

/-- The function `writeDataText`. -/
def writeDataText (fmt : Format) (config : Config) (input : List Nat) (output : Sink)
    (length : Nat) : Bool × List Nat × Sink :=
  textLoop fmt config length false input output

/-- The function `writeData`. -/
def writeData (fmt : Format) (config : Config) (input : List Nat) (output : Sink)
    (length : Nat) : Bool × List Nat × Sink :=
  if config.text then writeDataText fmt config input output length
  else writeDataNumerical fmt config input output length

/-! ## The function `process` (`packer.c`, lines 212 to 451) -/

/-- What `process` leaves behind: the returned status, the two streams, and whether a write
through a null stream pointer was made (the behaviour of the C program is undefined from
there on; the streams are given as they were at that point). -/
structure Outcome where
  retval : Nat
  output : Option Sink
  header : Option Sink
  fault : Bool
  deriving DecidableEq, Repr

/-- The streams while `process` runs: the unread part of the input file and the two
optional output streams (`none` is the null pointer). -/
structure Streams where
  input : List Nat
  output : Option Sink
  header : Option Sink

/-- Leaving `process` with a status (`return` or `goto RETURN`). -/
def Streams.leave (s : Streams) (retval : Nat) : Outcome :=
  { retval := retval, output := s.output, header := s.header, fault := false }

/-- The file name comment (lines 226 to 229, 239 to 242). -/
def nameComment (fmt : Format) (name : List Char) (cxx : Bool) : List Char :=
  if cxx then "// ".toList ++ fmt.NAME_COMMENT name ++ "\n".toList
  else "/* ".toList ++ fmt.NAME_COMMENT name ++ " */\n".toList

/-- Lines 223 to 249: the file name comment on both streams. -/
def writeNameComments (fmt : Format) (name : List Char) (outputCXX headerCXX : Bool)
    (s : Streams) : Except Outcome Streams :=
  let afterOutput : Except Outcome Streams :=
    match s.output with
    | none => .ok s
    | some o =>
      let o1 := o.puts (nameComment fmt name outputCXX)
      if o1.err then .error ({ s with output := some o1 }.leave 5)
      else .ok { s with output := some o1 }
  match afterOutput with
  | .error e => .error e
  | .ok s1 =>
    match s1.header with
    | none => .ok s1
    | some h =>
      let h1 := h.puts (nameComment fmt name headerCXX)
      if h1.err then .error ({ s1 with header := some h1 }.leave 5)
      else .ok { s1 with header := some h1 }

/-- The name of the size constant: `%s` followed by `SIZE_SUFFIX_CAMEL`, or by `_` and
`SIZE_SUFFIX` (lines 280, 282, 301, 303). -/
def sizeName (fmt : Format) (config : Config) (symbol : List Char) : List Char :=
  if config.camelCase then symbol ++ fmt.SIZE_SUFFIX_CAMEL
  else symbol ++ "_".toList ++ fmt.SIZE_SUFFIX

/-- Lines 276 to 317: the size definition. -/
def writeSize (fmt : Format) (config : Config) (implementation : Bool)
    (symbol symbolMacro : List Char) (length : Nat) (s : Streams) : Except Outcome Streams :=
  let afterOutput : Except Outcome Streams :=
    match s.output with
    | none => .ok s
    | some o =>
      if !config.createMacro then
        let o1 := o.puts ("const ".toList ++ fmt.SIZE_TYPE ++ " ".toList ++
          sizeName fmt config symbol ++ " = ".toList ++ fmtLength length ++ ";\n".toList)
        if o1.err then .error ({ s with output := some o1 }.leave 5)
        else .ok { s with output := some o1 }
      else .ok s
  match afterOutput with
  | .error e => .error e
  | .ok s1 =>
    match s1.header with
    | none => .ok s1
    | some h =>
      let h1 : Sink :=
        if config.createMacro then
          h.puts ("#define ".toList ++ symbolMacro ++ "_".toList ++ fmt.SIZE_SUFFIX_MACRO ++
            " ".toList ++ fmtLength length ++ "\n".toList)
        else
          let ha := if !implementation then h.puts "extern ".toList else h
          let hb := ha.puts ("const ".toList ++ fmt.SIZE_TYPE ++ " ".toList ++
            sizeName fmt config symbol)
          if implementation then hb.puts (" = ".toList ++ fmtLength length ++ ";\n".toList)
          else hb.puts ";\n".toList
      if h1.err then .error ({ s1 with header := some h1 }.leave 5)
      else .ok { s1 with header := some h1 }

/-- The declarator of the data: `const DATA_TYPE %s[%s_SIZE_SUFFIX_MACRO]` or
`const DATA_TYPE %s[%d]` (lines 324, 326, 385, 387; the output stream gets ` =` after it). -/
def dataDeclarator (fmt : Format) (config : Config) (symbol symbolMacro : List Char)
    (length : Nat) : List Char :=
  if config.createMacro then
    "const ".toList ++ fmt.DATA_TYPE ++ " ".toList ++ symbol ++ "[".toList ++ symbolMacro ++
      "_".toList ++ fmt.SIZE_SUFFIX_MACRO ++ "]".toList
  else
    "const ".toList ++ fmt.DATA_TYPE ++ " ".toList ++ symbol ++ "[".toList ++
      fmtLength length ++ "]".toList

/-- The opening of the literal (lines 328 to 343 and 391 to 406). -/
def openLiteral (fmt : Format) (config : Config) : List Char :=
  if !config.text then
    if config.singleLine then " \x7b ".toList
    else if !config.allman then " \x7b\n".toList ++ fmt.DATA_INDENT
    else "\n\x7b\n".toList ++ fmt.DATA_INDENT
  else
    if config.singleLine then " \x22".toList
    else "\n".toList ++ fmt.DATA_INDENT ++ "\x22".toList

/-- The closing of the literal (lines 361 to 369). -/
def closeLiteral (config : Config) : List Char :=
  if !config.text then
    if config.singleLine then " \x7d;\n\n".toList else "\n\x7d;\n\n".toList
  else "\x22;\n\n".toList

/-- Lines 319 to 377: the content of the input on the output stream. -/
def writeContentOutput (fmt : Format) (config : Config) (symbol symbolMacro : List Char)
    (length : Nat) (s : Streams) : Except Outcome Streams :=
  match s.output with
  | none => .ok s
  | some o =>
    let o1 := (o.puts (dataDeclarator fmt config symbol symbolMacro length ++ " =".toList)).puts
      (openLiteral fmt config)
    if o1.err then .error ({ s with output := some o1 }.leave 5)
    else
      let w := writeData fmt config s.input o1 length
      if !w.1 then .error ({ s with input := w.2.1, output := some w.2.2 }.leave 5)
      else
        let o2 := w.2.2.puts (closeLiteral config)
        if o2.err then .error ({ s with input := w.2.1, output := some o2 }.leave 5)
        else .ok { s with input := w.2.1, output := some o2 }

/-- Lines 378 to 443: the content of the input, or its declaration, on the header stream. In
text mode the closing of line 432 goes to `output`, not to `header`. -/
def writeContentHeader (fmt : Format) (config : Config) (implementation : Bool)
    (symbol symbolMacro : List Char) (length : Nat) (s : Streams) : Except Outcome Streams :=
  match s.header with
  | none => .ok s
  | some h =>
    let ha := if !implementation then h.puts "extern ".toList else h
    let hb := ha.puts (dataDeclarator fmt config symbol symbolMacro length)
    if implementation then
      let h1 := hb.puts (openLiteral fmt config)
      if h1.err then .error ({ s with header := some h1 }.leave 5)
      else
        let w := writeData fmt config s.input h1 length
        if !w.1 then .error ({ s with input := w.2.1, header := some w.2.2 }.leave 5)
        else if !config.text then
          let h2 := w.2.2.puts
            (if config.singleLine then " \x7d;\n\n".toList else "\n\x7d;\n\n".toList)
          if h2.err then .error ({ s with input := w.2.1, header := some h2 }.leave 5)
          else .ok { s with input := w.2.1, header := some h2 }
        else
          match s.output with
          | none =>
            .error { retval := 0, output := none, header := some w.2.2, fault := true }
          | some o =>
            let o2 := o.puts "\x22;\n\n".toList
            if w.2.2.err then
              .error ({ s with input := w.2.1, output := some o2, header := some w.2.2 }.leave 5)
            else .ok { s with input := w.2.1, output := some o2, header := some w.2.2 }
    else
      let h1 := hb.puts ";\n\n".toList
      if h1.err then .error ({ s with header := some h1 }.leave 5)
      else .ok { s with header := some h1 }

/-- Lines 251 to 255: the symbol, by the convention of the configuration. -/
def setupSymbol (fmax : Nat) (config : Config) (name : List Char) : List Char :=
  if config.camelCase then setupSymbolCamel fmax name else setupSymbolSnake fmax name

/-- The function `process`. The argument `file` is what `fopen(filename, "rb")` finds: `none`
when the file cannot be opened. The symbols are the buffers `symbol` and `symbolMacro` after
the calls of lines 252 to 259 (`symbolMacro` is read only when `createMacro` is set). -/
def process (fmt : Format) (fmax : Nat) (config : Config) (file : Option InputFile)
    (name : List Char) (output header : Option Sink) (outputCXX headerCXX : Bool) : Outcome :=
  let implementation : Bool := (output.isNone != header.isNone)
  let run : Except Outcome Streams :=
    match writeNameComments fmt name outputCXX headerCXX
        { input := [], output := output, header := header } with
    | .error e => .error e
    | .ok s1 =>
      let symbol := setupSymbol fmax config name
      let symbolMacro := setupSymbolMacro fmax name
      match file with
      | none => .error (s1.leave 4)
      | some f =>
        let s2 : Streams := { s1 with input := f.bytes }
        match writeSize fmt config implementation symbol symbolMacro f.length s2 with
        | .error e => .error e
        | .ok s3 =>
          match writeContentOutput fmt config symbol symbolMacro f.length s3 with
          | .error e => .error e
          | .ok s4 =>
            writeContentHeader fmt config implementation symbol symbolMacro f.length s4
  match run with
  | .error e => e
  | .ok s => s.leave 0

/-! ## Definitions used to state the properties -/

/-- The character class `[A-Za-z0-9_]`. -/
def isIdentChar (c : Char) : Bool :=
  (decide ('A' ≤ c) && decide (c ≤ 'Z')) || (decide ('a' ≤ c) && decide (c ≤ 'z')) ||
  (decide ('0' ≤ c) && decide (c ≤ '9')) || decide (c = '_')

/-- The character the snake convention stores for a character of the name. -/
def snakeChar (c : Char) : Char := if isAlnum c then tolower c else '_'

/-- The character the macro convention stores for a character of the name. -/
def macroChar (c : Char) : Char := if isAlnum c then toupper c else '_'

/-- Whether a symbol starts with a digit (the first character of the empty symbol is the
terminator). -/
def startsWithDigit : List Char → Bool
  | [] => false
  | c :: _ => isDigit c

/-- The text `writeDataNumerical` writes for the bytes `bs` when no write fails, from the
state `first`, `n` of its loop. -/
def numericalText (fmt : Format) (config : Config) : Bool → Nat → List Nat → List Char
  | _, _, [] => []
  | first, n, byte :: bs =>
    if first then fmtByte config byte ++ numericalText fmt config false (n + 1) bs
    else if !config.singleLine && decide (n ≥ fmt.DATA_PER_LINE) then
      ',' :: '\n' :: (fmt.DATA_INDENT ++ (fmtByte config byte ++
        numericalText fmt config false 1 bs))
    else ',' :: ' ' :: (fmtByte config byte ++ numericalText fmt config false (n + 1) bs)

/-- The text `writeDataText` writes for the bytes `bs` when no write fails, from the state
`newLine` of its loop. -/
def textText (fmt : Format) (config : Config) : Bool → List Nat → List Char
  | _, [] => []
  | newLine, byte :: bs =>
    if !config.singleLine && (if byte = 10 ∨ byte = 13 then true else newLine) then
      escapeByte byte ++ ('\x22' :: '\n' :: (fmt.DATA_INDENT ++ ['\x22'])) ++
        textText fmt config false bs
    else
      escapeByte byte ++
        textText fmt config (if byte = 10 ∨ byte = 13 then true else newLine) bs

/-- The text `writeData` writes for the bytes `bs` when no write fails. -/
def dataText (fmt : Format) (config : Config) (bs : List Nat) : List Char :=
  if config.text then textText fmt config false bs else numericalText fmt config true 0 bs

/-- The rendered byte data: what `writeData` writes, reading `bs` in full, to an empty
stream that takes every write. -/
def written (fmt : Format) (config : Config) (bs : List Nat) : List Char :=
  (writeData fmt config bs { buf := [], room := none, err := false } bs.length).2.2.buf

/-- Modelled from the spec: `format.h` is not among the sources. The constants are those the
spec shows: the comment holds the bare file name, the data type is `unsigned char`, the
indentation is four spaces, the size suffixes are `size` and `SIZE` (`Size` in camel case).
The spec leaves the size type and the number of items of a line open; `unsigned int` and 16
stand for them. -/
def specFormat : Format where
  NAME_COMMENT := fun name => name
  SIZE_TYPE := "unsigned int".toList
  SIZE_SUFFIX := "size".toList
  SIZE_SUFFIX_CAMEL := "Size".toList
  SIZE_SUFFIX_MACRO := "SIZE".toList
  DATA_TYPE := "unsigned char".toList
  DATA_INDENT := "    ".toList
  DATA_PER_LINE := 16

/-- The default state of the configuration (`main.c`, lines 161 to 168). -/
def defaultConfig : Config where
  format := NumberFormat.F_HEXADECIMAL
  createMacro := false
  camelCase := false
  allman := true
  text := false
  singleLine := false
  warning := true

/-! ## Reading a numerical literal back -/

/-- The blank characters trimmed from an item. -/
def isBlank (c : Char) : Bool :=
  decide (c = ' ') || decide (c = '\n') || decide (c = '\t') || decide (c = '\r')

/-- An item without the blanks at its two ends. -/
def trimBlank (s : List Char) : List Char :=
  ((s.dropWhile isBlank).reverse.dropWhile isBlank).reverse

/-- The value of a hexadecimal digit. -/
def hexDigitValue (c : Char) : Option Nat :=
  if '0' ≤ c ∧ c ≤ '9' then some (c.toNat - 48)
  else if 'a' ≤ c ∧ c ≤ 'f' then some (c.toNat - 87)
  else if 'A' ≤ c ∧ c ≤ 'F' then some (c.toNat - 55)
  else none

/-- The value of a decimal digit. -/
def decDigitValue (c : Char) : Option Nat :=
  if '0' ≤ c ∧ c ≤ '9' then some (c.toNat - 48) else none

/-- The number a list of digits denotes in a base, from the value `acc` of the digits
before; `none` when a character is not a digit. -/
def parseDigits (base : Nat) (value : Char → Option Nat) : List Char → Nat → Option Nat
  | [], acc => some acc
  | c :: cs, acc =>
    match value c with
    | none => none
    | some d => parseDigits base value cs (acc * base + d)

/-- An item read as a number: `0x` and at least one hexadecimal digit, or at least one
decimal digit. -/
def parseNumber : List Char → Option Nat
  | '0' :: 'x' :: d :: ds => parseDigits 16 hexDigitValue (d :: ds) 0
  | d :: ds => parseDigits 10 decDigitValue (d :: ds) 0
  | [] => none

/-- Every item read as a number. -/
def parseItems : List (List Char) → Option (List Nat)
  | [] => some []
  | s :: ss =>
    match parseNumber s, parseItems ss with
    | some v, some vs => some (v :: vs)
    | _, _ => none

/-- The bytes of a numerical literal: the text is split at the commas, every item is trimmed
and read as a number. A text of blanks only holds no item. -/
def parseLiteral (text : List Char) : Option (List Nat) :=
  let items := (text.splitOn ',').map trimBlank
  if items = [[]] then some [] else parseItems items

/-- An item is the number `b`, without comma or blank, and not empty. -/
def itemOk (s : List Char) (b : Nat) : Bool :=
  (parseNumber s == some b) && s.all (fun c => !(c == ',') && !isBlank c) && !s.isEmpty

/-! ## The camel convention in the words of the specification -/

/-- The test for an upper-case letter. -/
def isUpper (c : Char) : Bool := decide ('A' ≤ c) && decide (c ≤ 'Z')

/-- Whether a symbol starts with an upper-case letter. -/
def startsWithUpper : List Char → Bool
  | [] => false
  | c :: _ => isUpper c

/-- The camel mapping in the words of the specification, from the character before (`none` at
the start of the name): non-alphanumeric characters are dropped; an alphanumeric character is
lower-cased at the start of the name and after an alphanumeric character, and upper-cased
directly after a non-alphanumeric character. -/
def camelSpec : Option Char → List Char → List Char
  | _, [] => []
  | prev, c :: cs =>
    if isAlnum c then
      (match prev with
       | none => tolower c
       | some p => if isAlnum p then tolower c else toupper c) :: camelSpec (some c) cs
    else camelSpec (some c) cs

/-- The flag `nextUpper` in terms of the character read before. -/
def pendingUpper : Option Char → Bool
  | none => false
  | some p => !isAlnum p

/-! ## The text form -/

/-- The text between two segments of a string literal: closing quote, newline, indentation,
opening quote (line 194). -/
def lineSplit (fmt : Format) : List Char :=
  '\x22' :: '\n' :: (fmt.DATA_INDENT ++ ['\x22'])

/-! ## The layout of the numerical form -/

/-- Texts joined by a separator. -/
def joinWith (sep : List Char) : List (List Char) → List Char
  | [] => []
  | [x] => x
  | x :: y :: ys => x ++ sep ++ joinWith sep (y :: ys)

/-- Items grouped into consecutive lines of `n` items, the last line holding what is left;
`fuel` bounds the number of lines. -/
def groupLinesAux {α : Type} (n : Nat) : Nat → List α → List (List α)
  | 0, _ => []
  | _ + 1, [] => []
  | fuel + 1, x :: xs => (x :: xs).take n :: groupLinesAux n fuel ((x :: xs).drop n)

/-- Items grouped into consecutive lines of `n` items, the last line holding what is left. -/
def groupLines {α : Type} (n : Nat) (l : List α) : List (List α) :=
  groupLinesAux n l.length l

/-- The lower-case hexadecimal digit of a value below 16. -/
def hexDigit (d : Nat) : Char := "0123456789abcdef".toList.getD d '0'

/-! ## The helpers of `main.c` -/

/-- The loop of `getGuard` (`main.c`, lines 58 to 71): the characters stored into `guard`
from index `j` on. -/
def guardLoop (fmax : Nat) : List Char → Nat → List Char
  | [], _ => []
  | c :: rest, j =>
    if j ≥ fmax then []
    else (if c = '.' then '_' else toupper c) :: guardLoop fmax rest (j + 1)

/-- The function `getGuard`: the characters it stores into `guard`, from index 0. It stores
no terminator: the caller declares `char guard[FILENAME_MAX] = { 0 }`, so the guard is a
terminated string exactly when fewer than `FILENAME_MAX` characters are stored. -/
def getGuard (fmax : Nat) (filename : List Char) : List Char :=
  guardLoop fmax filename 0

/-- One argument of the file list of `main`: the base name given to `process` as `name`, and
what `fopen` finds under the path. -/
structure FileArg where
  name : List Char
  file : Option InputFile

/-- The loop over the files (`main.c`, lines 365 to 375), from the value of `retval` and the
two streams. A write through a null stream ends the run of the model (`fault`). -/
def processFiles (fmt : Format) (fmax : Nat) (config : Config) (outputCXX headerCXX : Bool) :
    List FileArg → Nat → Option Sink → Option Sink → Outcome
  | [], retval, output, header =>
    { retval := retval, output := output, header := header, fault := false }
  | a :: rest, retval, output, header =>
    let r := process fmt fmax config a.file a.name output header outputCXX headerCXX
    if r.fault then { r with retval := retval }
    else
      processFiles fmt fmax config outputCXX headerCXX rest
        (if r.retval ≠ 0 ∧ retval = 0 then r.retval else retval) r.output r.header

/-- The calls of `process` on the files in order, each on the streams the call before left:
the outcome of every call. -/
def callOutcomes (fmt : Format) (fmax : Nat) (config : Config) (outputCXX headerCXX : Bool) :
    List FileArg → Option Sink → Option Sink → List Outcome
  | [], _, _ => []
  | a :: rest, output, header =>
    let r := process fmt fmax config a.file a.name output header outputCXX headerCXX
    r :: callOutcomes fmt fmax config outputCXX headerCXX rest r.output r.header

/-- The first status of a list that is not zero, or zero. -/
def firstNonZero : List Nat → Nat
  | [] => 0
  | s :: ss => if s ≠ 0 then s else firstNonZero ss

/-- The character `getGuard` stores for a character of the name. -/
def guardChar (c : Char) : Char := if c = '.' then '_' else toupper c

/-! ## Reading a text literal back -/

/-- The text `s` without the leading text `p`, when it starts with it. -/
def dropLeading : List Char → List Char → Option (List Char)
  | [], s => some s
  | _ :: _, [] => none
  | a :: p, b :: s => if a = b then dropLeading p s else none

/-- The byte a two-character escape stands for, from its second character. -/
def unescapeChar (c : Char) : Option Nat :=
  if c = 'n' then some 10
  else if c = 'r' then some 13
  else if c = 'a' then some 7
  else if c = 'b' then some 8
  else if c = 'f' then some 12
  else if c = 't' then some 9
  else if c = 'v' then some 11
  else if c = '\x22' then some 34
  else if c = '\\' then some 92
  else none

/-- The bytes of the body of a text literal, read from the left: a backslash and the
character after it are an escape; a quote that is not escaped starts a segment break (quote,
newline, indentation, quote), which is removed; every other character is its byte. `fuel`
bounds the number of steps. -/
def decodeTextAux (fmt : Format) : Nat → List Char → Option (List Nat)
  | _, [] => some []
  | 0, _ :: _ => none
  | fuel + 1, c :: cs =>
    if c = '\\' then
      match cs with
      | [] => none
      | e :: rest =>
        match unescapeChar e, decodeTextAux fmt fuel rest with
        | some b, some bs => some (b :: bs)
        | _, _ => none
    else if c = '\x22' then
      match dropLeading ('\n' :: (fmt.DATA_INDENT ++ ['\x22'])) cs with
      | none => none
      | some rest => decodeTextAux fmt fuel rest
    else
      match decodeTextAux fmt fuel cs with
      | some bs => some (c.toNat :: bs)
      | none => none

/-- The bytes of the body of a text literal. -/
def decodeText (fmt : Format) (text : List Char) : Option (List Nat) :=
  decodeTextAux fmt text.length text

/-! ## The file type (`main.c`, lines 33 to 52) -/

/-- Reading `s[i]` in a C string: a character of the string, the terminator at the index of
its length, and nothing (`none`) past the terminator, where the read leaves the string. -/
def readAt (s : List Char) (i : Nat) : Option Char :=
  if h : i < s.length then some s[i]
  else if i = s.length then some '\x00'
  else none

/-- The function `strrchr` for a character other than the terminator: the part of the string
from the last occurrence of `c` on, `none` (the null pointer) without an occurrence. -/
def strrchr : List Char → Char → Option (List Char)
  | [], _ => none
  | x :: xs, c =>
    match strrchr xs c with
    | some t => some t
    | none => if x = c then some (x :: xs) else none

/-- The function `checkFiletype`: the values left in `*isHeader` and `*isCXX`, or `none` when
a read leaves the string. -/
def checkFiletype (filename : List Char) : Option (Bool × Bool) :=
  match strrchr filename '.' with
  | none => some (false, false)
  | some extension =>
    match readAt extension 1 with
    | none => none
    | some e1 =>
      let isHeader : Bool := decide (e1 = 'h') || decide (e1 = 'H')
      if e1 = '\x00' then some (isHeader, false)
      else
        match readAt extension 2 with
        | none => none
        | some e2 =>
          some (isHeader,
            decide (e2 = 'p') || decide (e2 = 'P') || decide (e2 = 'x') || decide (e2 = 'X'))

/-! ## Facts about characters -/

/-- Below `2 ^ 31` the conversion `%d` of the length prints the decimal byte count. -/
theorem fmtLength_eq_repr (n : Nat) (h : n < 2 ^ 31) : fmtLength n = (Nat.repr n).toList := by
  have h1 : n % 2 ^ 32 = n := Nat.mod_eq_of_lt (by omega)
  simp only [fmtLength, h1, h, if_true]
  rfl

theorem char_le_iff (a b : Char) : a ≤ b ↔ a.toNat ≤ b.toNat := Iff.rfl

theorem isAlnum_toNat_lt {c : Char} (h : isAlnum c = true) : c.toNat < 128 := by
  simp only [isAlnum, Bool.or_eq_true, Bool.and_eq_true, decide_eq_true_eq, char_le_iff] at h
  have e1 : 'z'.toNat = 122 := rfl
  have e2 : 'Z'.toNat = 90 := rfl
  have e3 : '9'.toNat = 57 := rfl
  omega

theorem ascii_cases (P : Char → Prop) (h : ∀ n, n < 128 → P (Char.ofNat n)) (c : Char)
    (hc : c.toNat < 128) : P c := by
  have := h c.toNat hc
  rwa [Char.ofNat_toNat] at this

theorem ident_of_alnum_ascii : ∀ n, n < 128 → isAlnum (Char.ofNat n) = true →
    isIdentChar (tolower (Char.ofNat n)) = true ∧ isIdentChar (toupper (Char.ofNat n)) = true ∧
    isDigit (toupper (Char.ofNat n)) = isDigit (Char.ofNat n) ∧
    isDigit (tolower (Char.ofNat n)) = isDigit (Char.ofNat n) := by
  decide

theorem isIdentChar_tolower {c : Char} (h : isAlnum c = true) :
    isIdentChar (tolower c) = true :=
  (ascii_cases (fun c => isAlnum c = true → isIdentChar (tolower c) = true)
    (fun n hn hc => (ident_of_alnum_ascii n hn hc).1) c (isAlnum_toNat_lt h)) h

theorem isIdentChar_toupper {c : Char} (h : isAlnum c = true) :
    isIdentChar (toupper c) = true :=
  (ascii_cases (fun c => isAlnum c = true → isIdentChar (toupper c) = true)
    (fun n hn hc => (ident_of_alnum_ascii n hn hc).2.1) c (isAlnum_toNat_lt h)) h

theorem isIdentChar_underscore : isIdentChar '_' = true := by decide

theorem isDigit_underscore : isDigit '_' = false := by decide

theorem isIdentChar_snakeChar (c : Char) : isIdentChar (snakeChar c) = true := by
  unfold snakeChar
  split
  · exact isIdentChar_tolower (by assumption)
  · exact isIdentChar_underscore

theorem isIdentChar_macroChar (c : Char) : isIdentChar (macroChar c) = true := by
  unfold macroChar
  split
  · exact isIdentChar_toupper (by assumption)
  · exact isIdentChar_underscore

/-! ## Facts about the symbol namer -/

theorem mem_fixLeadingDigit {l : List Char} {c : Char} (h : c ∈ fixLeadingDigit l) :
    c ∈ l ∨ c = '_' := by
  cases l with
  | nil => simp [fixLeadingDigit] at h
  | cons a as =>
    simp only [fixLeadingDigit] at h
    split at h
    · rcases List.mem_cons.1 h with h1 | h1
      · exact Or.inr h1
      · exact Or.inl (List.mem_cons_of_mem _ h1)
    · exact Or.inl h

theorem fixLeadingDigit_eq_nil {l : List Char} : fixLeadingDigit l = [] ↔ l = [] := by
  cases l with
  | nil => simp [fixLeadingDigit]
  | cons a as =>
    simp only [fixLeadingDigit]
    split <;> simp

theorem fixLeadingDigit_length (l : List Char) : (fixLeadingDigit l).length = l.length := by
  cases l with
  | nil => rfl
  | cons a as =>
    simp only [fixLeadingDigit]
    split <;> simp

theorem mem_snakeLoop (fmax : Nat) : ∀ (name : List Char) (j : Nat) (c : Char),
    c ∈ snakeLoop fmax name j → isIdentChar c = true
  | [], _, c, h => by simp [snakeLoop] at h
  | a :: rest, j, c, h => by
    simp only [snakeLoop] at h
    split at h
    · simp at h
    · rcases List.mem_cons.1 h with h1 | h1
      · rw [h1]; exact isIdentChar_snakeChar a
      · exact mem_snakeLoop fmax rest (j + 1) c h1

theorem mem_macroLoop (fmax : Nat) : ∀ (name : List Char) (j : Nat) (c : Char),
    c ∈ macroLoop fmax name j → isIdentChar c = true
  | [], _, c, h => by simp [macroLoop] at h
  | a :: rest, j, c, h => by
    simp only [macroLoop] at h
    split at h
    · simp at h
    · rcases List.mem_cons.1 h with h1 | h1
      · rw [h1]; exact isIdentChar_macroChar a
      · exact mem_macroLoop fmax rest (j + 1) c h1

theorem mem_camelLoop (fmax : Nat) : ∀ (name : List Char) (j : Nat) (u : Bool) (c : Char),
    c ∈ camelLoop fmax name j u → isIdentChar c = true
  | [], _, _, c, h => by simp [camelLoop] at h
  | a :: rest, j, u, c, h => by
    simp only [camelLoop] at h
    split at h
    · simp at h
    · split at h
      · rename_i ha
        rcases List.mem_cons.1 h with h1 | h1
        · rw [h1]
          cases u
          · exact isIdentChar_tolower ha
          · exact isIdentChar_toupper ha
        · exact mem_camelLoop fmax rest (j + 1) false c h1
      · exact mem_camelLoop fmax rest j true c h

/-- Without truncation the snake loop maps the name character by character. -/
theorem snakeLoop_eq_map (fmax : Nat) : ∀ (name : List Char) (j : Nat),
    j + name.length < fmax → snakeLoop fmax name j = name.map snakeChar
  | [], _, _ => rfl
  | a :: rest, j, h => by
    have h1 : ¬ (j + 1 = fmax) := by simp only [List.length_cons] at h; omega
    have h2 : (j + 1) + rest.length < fmax := by simp only [List.length_cons] at h; omega
    simp only [snakeLoop, h1, if_false, List.map_cons, snakeLoop_eq_map fmax rest (j + 1) h2,
      snakeChar]

/-- Without truncation the macro loop maps the name character by character. -/
theorem macroLoop_eq_map (fmax : Nat) : ∀ (name : List Char) (j : Nat),
    j + name.length < fmax → macroLoop fmax name j = name.map macroChar
  | [], _, _ => rfl
  | a :: rest, j, h => by
    have h1 : ¬ (j + 1 = fmax) := by simp only [List.length_cons] at h; omega
    have h2 : (j + 1) + rest.length < fmax := by simp only [List.length_cons] at h; omega
    simp only [macroLoop, h1, if_false, List.map_cons, macroLoop_eq_map fmax rest (j + 1) h2,
      macroChar]

/-- When the name fits, the camel loop does not depend on the bound (`0` never stops it). -/
theorem camelLoop_eq_unbounded (fmax : Nat) : ∀ (name : List Char) (j : Nat) (u : Bool),
    j + name.length < fmax → camelLoop fmax name j u = camelLoop 0 name j u
  | [], _, _, _ => rfl
  | a :: rest, j, u, h => by
    have h1 : ¬ (j + 1 = fmax) := by simp only [List.length_cons] at h; omega
    have h2 : (j + 1) + rest.length < fmax := by simp only [List.length_cons] at h; omega
    have h3 : j + rest.length < fmax := by omega
    simp only [camelLoop, h1, if_false, Nat.add_one_ne_zero,
      camelLoop_eq_unbounded fmax rest (j + 1) false h2,
      camelLoop_eq_unbounded fmax rest j true h3]

/-- The camel loop stores nothing exactly when the name has no alphanumeric character. -/
theorem camelLoop_eq_nil_iff (fmax : Nat) (hf : 2 ≤ fmax) : ∀ (name : List Char) (u : Bool),
    camelLoop fmax name 0 u = [] ↔ ∀ c ∈ name, isAlnum c = false
  | [], _ => by simp [camelLoop]
  | a :: rest, u => by
    have h1 : ¬ (0 + 1 = fmax) := by omega
    simp only [camelLoop, h1, if_false]
    by_cases ha : isAlnum a = true
    · simp [ha]
    · simp only [ha, Bool.false_eq_true, if_false, camelLoop_eq_nil_iff fmax hf rest true,
        List.mem_cons, forall_eq_or_imp]
      simp [ha]

theorem isDigit_snakeChar (c : Char) : isDigit (snakeChar c) = isDigit c := by
  unfold snakeChar
  by_cases h : isAlnum c = true
  · rw [if_pos h]
    exact (ascii_cases (fun c => isAlnum c = true → isDigit (tolower c) = isDigit c)
      (fun n hn hc => (ident_of_alnum_ascii n hn hc).2.2.2) c (isAlnum_toNat_lt h)) h
  · rw [if_neg h, isDigit_underscore]
    cases hd : isDigit c
    · rfl
    · exfalso
      apply h
      simp only [isDigit, Bool.and_eq_true] at hd
      simp only [isAlnum, Bool.or_eq_true, Bool.and_eq_true]
      exact Or.inr hd

theorem startsWithDigit_fixLeadingDigit (l : List Char) :
    startsWithDigit (fixLeadingDigit l) = false := by
  cases l with
  | nil => rfl
  | cons a as =>
    simp only [fixLeadingDigit]
    by_cases h : isDigit a = true
    · rw [if_pos h]; exact isDigit_underscore
    · rw [if_neg h]; simpa [startsWithDigit] using h

theorem fixLeadingDigit_eq (l : List Char) :
    fixLeadingDigit l = if startsWithDigit l then '_' :: l.tail else l := by
  cases l with
  | nil => rfl
  | cons a as => simp [fixLeadingDigit, startsWithDigit]

/-! ## Facts about the streams and the data loops -/

@[simp] theorem Sink.puts_unlimited (b t : List Char) (e : Bool) :
    Sink.puts { buf := b, room := none, err := e } t = { buf := b ++ t, room := none, err := e } :=
  rfl

/-- On a stream that takes every write, with the bytes `bs` to read in full, the loop of
`writeDataNumerical` returns true, leaves the rest of the input and appends
`numericalText`. -/
theorem numericalLoop_unlimited (fmt : Format) (config : Config) :
    ∀ (bs rest : List Nat) (first : Bool) (n : Nat) (b : List Char),
      numericalLoop fmt config bs.length first n (bs ++ rest)
          { buf := b, room := none, err := false } =
        (true, rest, { buf := b ++ numericalText fmt config first n bs, room := none,
                       err := false })
  | [], rest, first, n, b => by simp [numericalLoop, numericalText]
  | byte :: bs, rest, first, n, b => by
    cases first
    · by_cases hc : (!config.singleLine && decide (n ≥ fmt.DATA_PER_LINE)) = true
      · simp [numericalLoop, numericalText, hc, numericalLoop_unlimited fmt config bs rest]
      · simp [numericalLoop, numericalText, hc, numericalLoop_unlimited fmt config bs rest]
    · simp [numericalLoop, numericalText, numericalLoop_unlimited fmt config bs rest]

/-- On a stream that takes every write, with the bytes `bs` to read in full, the loop of
`writeDataText` returns true, leaves the rest of the input and appends `textText`. -/
theorem textLoop_unlimited (fmt : Format) (config : Config) :
    ∀ (bs rest : List Nat) (newLine : Bool) (b : List Char),
      textLoop fmt config bs.length newLine (bs ++ rest)
          { buf := b, room := none, err := false } =
        (true, rest, { buf := b ++ textText fmt config newLine bs, room := none,
                       err := false })
  | [], rest, newLine, b => by simp [textLoop, textText]
  | byte :: bs, rest, newLine, b => by
    have ih := textLoop_unlimited fmt config bs rest
    cases hs : config.singleLine <;> by_cases hb : byte = 10 ∨ byte = 13 <;> cases newLine <;>
      simp [textLoop, textText, hs, hb, ih]

theorem writeData_unlimited (fmt : Format) (config : Config) (bs rest : List Nat)
    (b : List Char) :
    writeData fmt config (bs ++ rest) { buf := b, room := none, err := false } bs.length =
      (true, rest, { buf := b ++ dataText fmt config bs, room := none, err := false }) := by
  unfold writeData dataText
  split
  · exact textLoop_unlimited fmt config bs rest false b
  · exact numericalLoop_unlimited fmt config bs rest true 0 b

theorem written_eq (fmt : Format) (config : Config) (bs : List Nat) :
    written fmt config bs = dataText fmt config bs := by
  have h := writeData_unlimited fmt config bs [] []
  rw [List.append_nil] at h
  simp [written, h]

theorem writeData_written (fmt : Format) (config : Config) (bs : List Nat) (b : List Char) :
    writeData fmt config bs { buf := b, room := none, err := false } bs.length =
      (true, [], { buf := b ++ written fmt config bs, room := none, err := false }) := by
  have h := writeData_unlimited fmt config bs [] b
  rw [List.append_nil] at h
  rw [h, written_eq]

/-! ## The symbol namer: properties -/

/-- C5: for every file name and every bound, the symbols made by `setupSymbolSnake`,
`setupSymbolCamel` and `setupSymbolMacro` consist only of characters of `[A-Za-z0-9_]`. -/
theorem setupSymbol_charset (fmax : Nat) (name : List Char) :
    (setupSymbolSnake fmax name).all isIdentChar = true ∧
    (setupSymbolCamel fmax name).all isIdentChar = true ∧
    (setupSymbolMacro fmax name).all isIdentChar = true := by
  refine ⟨?_, ?_, ?_⟩
  · rw [List.all_eq_true]
    intro c hc
    rcases mem_fixLeadingDigit hc with h | h
    · exact mem_snakeLoop fmax name 0 c h
    · rw [h]; exact isIdentChar_underscore
  · rw [List.all_eq_true]
    intro c hc
    rcases mem_fixLeadingDigit hc with h | h
    · exact mem_camelLoop fmax name 0 false c h
    · rw [h]; exact isIdentChar_underscore
  · rw [List.all_eq_true]
    intro c hc
    exact mem_macroLoop fmax name 0 c hc

/-- For a non-empty file name and a buffer of at least two bytes, `setupSymbolSnake` and
`setupSymbolMacro` store at least one character, and `setupSymbolCamel` stores none exactly
when the name holds no alphanumeric character. -/
theorem setupSymbol_nonempty (fmax : Nat) (name : List Char) (hf : 2 ≤ fmax)
    (hn : name ≠ []) :
    setupSymbolSnake fmax name ≠ [] ∧ setupSymbolMacro fmax name ≠ [] ∧
    (setupSymbolCamel fmax name ≠ [] ↔ name.any isAlnum = true) := by
  have h1 : ¬ (0 + 1 = fmax) := by omega
  refine ⟨?_, ?_, ?_⟩
  · cases name with
    | nil => exact absurd rfl hn
    | cons a rest =>
      intro h
      rw [setupSymbolSnake, fixLeadingDigit_eq_nil] at h
      simp [snakeLoop, h1] at h
  · cases name with
    | nil => exact absurd rfl hn
    | cons a rest =>
      intro h
      simp [setupSymbolMacro, macroLoop, h1] at h
  · rw [setupSymbolCamel, Ne, fixLeadingDigit_eq_nil, camelLoop_eq_nil_iff fmax hf name false]
    rw [List.any_eq_true]
    constructor
    · intro h
      by_contra hc
      apply h
      intro c hmem
      cases hv : isAlnum c
      · rfl
      · exact absurd ⟨c, hmem, hv⟩ hc
    · rintro ⟨c, hmem, hv⟩ h
      rw [h c hmem] at hv
      exact Bool.false_ne_true hv

/-- The fact above at the name `a-b` and a buffer of 4096 bytes. -/
theorem setupSymbol_nonempty_witness :
    2 ≤ 4096 ∧ "a-b".toList ≠ [] ∧
    (setupSymbolSnake 4096 "a-b".toList ≠ [] ∧ setupSymbolMacro 4096 "a-b".toList ≠ [] ∧
     (setupSymbolCamel 4096 "a-b".toList ≠ [] ↔ "a-b".toList.any isAlnum = true)) :=
  ⟨by decide, by decide, setupSymbol_nonempty 4096 "a-b".toList (by decide) (by decide)⟩

/-- C6: the code at a file named `_` with the camel convention: `setupSymbolCamel` gives the
empty symbol where `setupSymbolSnake` and `setupSymbolMacro` give `_`, and `process` returns
0 having declared a size constant named by the suffix alone and an array without a name. -/
theorem process_camel_empty_symbol :
    setupSymbolCamel 4096 "_".toList = [] ∧
    setupSymbolSnake 4096 "_".toList = "_".toList ∧
    setupSymbolMacro 4096 "_".toList = "_".toList ∧
    process specFormat 4096 { defaultConfig with camelCase := true }
        (some { length := 1, bytes := [0x41] })
        "_".toList (some { buf := [], room := none, err := false }) none false false =
      { retval := 0,
        output := some
          { buf := ("/* _ */\n" ++
              "const unsigned int Size = 1;\n" ++
              "const unsigned char [1] =\n\x7b\n    0x41\n\x7d;\n\n").toList,
            room := none, err := false },
        header := none,
        fault := false } ∧
    process specFormat 4096 defaultConfig
        (some { length := 1, bytes := [0x41] })
        "_".toList (some { buf := [], room := none, err := false }) none false false =
      { retval := 0,
        output := some
          { buf := ("/* _ */\n" ++
              "const unsigned int __size = 1;\n" ++
              "const unsigned char _[1] =\n\x7b\n    0x41\n\x7d;\n\n").toList,
            room := none, err := false },
        header := none,
        fault := false } := by
  decide

/-- C7: for every file name the results of `setupSymbolSnake` and `setupSymbolCamel` do not
start with a digit; when the first character stored by the loop is a digit, the result is
`_` followed by the later characters, unchanged, and otherwise it is what the loop stored. -/
theorem setupSymbol_leading_digit (fmax : Nat) (name : List Char) :
    startsWithDigit (setupSymbolSnake fmax name) = false ∧
    startsWithDigit (setupSymbolCamel fmax name) = false ∧
    setupSymbolSnake fmax name =
      (if startsWithDigit (snakeLoop fmax name 0) then '_' :: (snakeLoop fmax name 0).tail
       else snakeLoop fmax name 0) ∧
    setupSymbolCamel fmax name =
      (if startsWithDigit (camelLoop fmax name 0 false) then
         '_' :: (camelLoop fmax name 0 false).tail
       else camelLoop fmax name 0 false) :=
  ⟨startsWithDigit_fixLeadingDigit _, startsWithDigit_fixLeadingDigit _,
   fixLeadingDigit_eq _, fixLeadingDigit_eq _⟩

/-- C8: the code at the name `3d.bin`: `setupSymbolMacro` keeps the leading digit, while the
other two functions replace it with `_`. -/
theorem setupSymbolMacro_keeps_leading_digit :
    setupSymbolMacro 4096 "3d.bin".toList = "3D_BIN".toList ∧
    setupSymbolSnake 4096 "3d.bin".toList = "_d_bin".toList ∧
    setupSymbolCamel 4096 "3d.bin".toList = "_dBin".toList := by
  decide

/-- C9: for the name `my-file.bin` (which fits the buffer), `setupSymbolSnake` gives
`my_file_bin`, `setupSymbolCamel` gives `myFileBin` and `setupSymbolMacro` gives
`MY_FILE_BIN`. -/
theorem naming_example (fmax : Nat) (hf : 11 < fmax) :
    setupSymbolSnake fmax "my-file.bin".toList = "my_file_bin".toList ∧
    setupSymbolCamel fmax "my-file.bin".toList = "myFileBin".toList ∧
    setupSymbolMacro fmax "my-file.bin".toList = "MY_FILE_BIN".toList := by
  have hlen : 0 + "my-file.bin".toList.length < fmax := by
    have : "my-file.bin".toList.length = 11 := by decide
    omega
  refine ⟨?_, ?_, ?_⟩
  · rw [setupSymbolSnake, snakeLoop_eq_map fmax _ 0 hlen]; decide
  · rw [setupSymbolCamel, camelLoop_eq_unbounded fmax _ 0 false hlen]; decide
  · rw [setupSymbolMacro, macroLoop_eq_map fmax _ 0 hlen]; decide

/-- C9 with the buffer size 4096. -/
theorem naming_example_witness :
    11 < 4096 ∧
    (setupSymbolSnake 4096 "my-file.bin".toList = "my_file_bin".toList ∧
     setupSymbolCamel 4096 "my-file.bin".toList = "myFileBin".toList ∧
     setupSymbolMacro 4096 "my-file.bin".toList = "MY_FILE_BIN".toList) :=
  ⟨by decide, naming_example 4096 (by decide)⟩

/-- C10: for a file name that fits the buffer, the result of `setupSymbolSnake` has the
length of the name; at every position it holds the lower-cased character of the name when
that is alphanumeric and `_` otherwise, except that a digit at position 0 becomes `_`. -/
theorem setupSymbolSnake_one_to_one (fmax : Nat) (name : List Char)
    (h : name.length < fmax) :
    (setupSymbolSnake fmax name).length = name.length ∧
    ∀ (i : Nat) (hi : i < name.length),
      (setupSymbolSnake fmax name)[i]? =
        some (if i = 0 ∧ isDigit name[i] = true then '_'
              else if isAlnum name[i] = true then tolower name[i] else '_') := by
  have hmap : snakeLoop fmax name 0 = name.map snakeChar :=
    snakeLoop_eq_map fmax name 0 (by omega)
  constructor
  · rw [setupSymbolSnake, fixLeadingDigit_length, hmap, List.length_map]
  · intro i hi
    rw [setupSymbolSnake, hmap]
    cases name with
    | nil => simp at hi
    | cons a rest =>
      cases i with
      | zero =>
        simp only [List.map_cons, fixLeadingDigit, isDigit_snakeChar, List.getElem_cons_zero,
          true_and]
        by_cases hd : isDigit a = true
        · simp [hd]
        · simp [hd, snakeChar]
      | succ k =>
        have hk : k < rest.length := by simpa using hi
        simp only [List.map_cons, fixLeadingDigit, List.getElem_cons_succ]
        have : ∀ x : Char, ((x :: List.map snakeChar rest)[k + 1]?) = some (snakeChar rest[k]) := by
          intro x
          simp [List.getElem?_cons_succ, List.getElem?_map, List.getElem?_eq_getElem hk]
        split <;> simp [this, snakeChar]

/-- C10 at the name `a--b`: the two separators are not collapsed. -/
theorem setupSymbolSnake_one_to_one_witness :
    "a--b".toList.length < 4096 ∧ setupSymbolSnake 4096 "a--b".toList = "a__b".toList ∧
    ((setupSymbolSnake 4096 "a--b".toList).length = "a--b".toList.length ∧
     ∀ (i : Nat) (hi : i < "a--b".toList.length),
      (setupSymbolSnake 4096 "a--b".toList)[i]? =
        some (if i = 0 ∧ isDigit "a--b".toList[i] = true then '_'
              else if isAlnum "a--b".toList[i] = true then tolower "a--b".toList[i]
              else '_')) :=
  ⟨by decide, by decide, setupSymbolSnake_one_to_one 4096 "a--b".toList (by decide)⟩

/-! ## Facts about `process` with one stream -/

/-- With the output stream alone (taking every write) and the input read in full, `process`
writes the comment, the size definition (unless a macro is asked for) and the definition of
the data with its literal. -/
theorem process_output_only (fmt : Format) (fmax : Nat) (config : Config) (name : List Char)
    (bs : List Nat) (ob : List Char) (outputCXX headerCXX : Bool) :
    process fmt fmax config (some { length := bs.length, bytes := bs }) name
        (some { buf := ob, room := none, err := false }) none outputCXX headerCXX =
      { retval := 0,
        output := some
          { buf := ob ++ nameComment fmt name outputCXX ++
              (if config.createMacro then []
               else "const ".toList ++ fmt.SIZE_TYPE ++ " ".toList ++
                 sizeName fmt config (setupSymbol fmax config name) ++ " = ".toList ++
                 fmtLength bs.length ++ ";\n".toList) ++
              dataDeclarator fmt config (setupSymbol fmax config name)
                (setupSymbolMacro fmax name) bs.length ++ " =".toList ++
              openLiteral fmt config ++ written fmt config bs ++ closeLiteral config,
            room := none, err := false },
        header := none,
        fault := false } := by
  cases hm : config.createMacro <;>
    simp [process, writeNameComments, writeSize, writeContentOutput, writeContentHeader,
      Streams.leave, writeData_written, hm]

/-- With the header stream alone (taking every write), the numerical form and the input read
in full, `process` writes the comment, the size definition or the macro, and then the
declarator directly followed by the opening of the literal, the bytes and the closing. -/
theorem process_header_only_numerical (fmt : Format) (fmax : Nat) (config : Config)
    (name : List Char) (bs : List Nat) (hb : List Char) (outputCXX headerCXX : Bool)
    (ht : config.text = false) :
    process fmt fmax config (some { length := bs.length, bytes := bs }) name
        none (some { buf := hb, room := none, err := false }) outputCXX headerCXX =
      { retval := 0,
        output := none,
        header := some
          { buf := hb ++ nameComment fmt name headerCXX ++
              (if config.createMacro then
                 "#define ".toList ++ setupSymbolMacro fmax name ++ "_".toList ++
                   fmt.SIZE_SUFFIX_MACRO ++ " ".toList ++ fmtLength bs.length ++ "\n".toList
               else "const ".toList ++ fmt.SIZE_TYPE ++ " ".toList ++
                 sizeName fmt config (setupSymbol fmax config name) ++ " = ".toList ++
                 fmtLength bs.length ++ ";\n".toList) ++
              dataDeclarator fmt config (setupSymbol fmax config name)
                (setupSymbolMacro fmax name) bs.length ++
              openLiteral fmt config ++ written fmt config bs ++ closeLiteral config,
            room := none, err := false },
        fault := false } := by
  cases hm : config.createMacro <;> cases hs : config.singleLine <;>
    simp [process, writeNameComments, writeSize, writeContentOutput, writeContentHeader,
      Streams.leave, writeData_written, closeLiteral, hm, ht, hs]

/-- With the header stream alone (taking every write), the text form and the input read in
full, `process` reaches line 432 and writes the closing through the null `output`. -/
theorem process_header_only_text (fmt : Format) (fmax : Nat) (config : Config)
    (name : List Char) (bs : List Nat) (hb : List Char) (outputCXX headerCXX : Bool)
    (ht : config.text = true) :
    process fmt fmax config (some { length := bs.length, bytes := bs }) name
        none (some { buf := hb, room := none, err := false }) outputCXX headerCXX =
      { retval := 0,
        output := none,
        header := some
          { buf := hb ++ nameComment fmt name headerCXX ++
              (if config.createMacro then
                 "#define ".toList ++ setupSymbolMacro fmax name ++ "_".toList ++
                   fmt.SIZE_SUFFIX_MACRO ++ " ".toList ++ fmtLength bs.length ++ "\n".toList
               else "const ".toList ++ fmt.SIZE_TYPE ++ " ".toList ++
                 sizeName fmt config (setupSymbol fmax config name) ++ " = ".toList ++
                 fmtLength bs.length ++ ";\n".toList) ++
              dataDeclarator fmt config (setupSymbol fmax config name)
                (setupSymbolMacro fmax name) bs.length ++
              openLiteral fmt config ++ written fmt config bs,
            room := none, err := false },
        fault := true } := by
  cases hm : config.createMacro <;>
    simp [process, writeNameComments, writeSize, writeContentOutput, writeContentHeader,
      Streams.leave, writeData_written, hm, ht]

/-! ## The emitter: placement of declaration and definition -/

/-- C1: with both streams present (each taking every write) and the input read in full, its
length below `2 ^ 31`, for every configuration `process` returns 0; the output stream
receives the declarator followed by ` =`, the opening of the literal, the rendered bytes and
the closing, and the header stream receives for the data only the word `extern`, the
declarator and `;`, with no literal. The length in the declarator is the decimal byte
count. -/
theorem process_split_sinks (fmt : Format) (fmax : Nat) (config : Config) (name : List Char)
    (bs : List Nat) (ob hb : List Char) (outputCXX headerCXX : Bool)
    (hlen : bs.length < 2 ^ 31) :
    fmtLength bs.length = (Nat.repr bs.length).toList ∧
    process fmt fmax config (some { length := bs.length, bytes := bs }) name
        (some { buf := ob, room := none, err := false })
        (some { buf := hb, room := none, err := false }) outputCXX headerCXX =
      { retval := 0,
        output := some
          { buf := ob ++ nameComment fmt name outputCXX ++
              (if config.createMacro then []
               else "const ".toList ++ fmt.SIZE_TYPE ++ " ".toList ++
                 sizeName fmt config (setupSymbol fmax config name) ++ " = ".toList ++
                 fmtLength bs.length ++ ";\n".toList) ++
              dataDeclarator fmt config (setupSymbol fmax config name)
                (setupSymbolMacro fmax name) bs.length ++ " =".toList ++
              openLiteral fmt config ++ written fmt config bs ++ closeLiteral config,
            room := none, err := false },
        header := some
          { buf := hb ++ nameComment fmt name headerCXX ++
              (if config.createMacro then
                 "#define ".toList ++ setupSymbolMacro fmax name ++ "_".toList ++
                   fmt.SIZE_SUFFIX_MACRO ++ " ".toList ++ fmtLength bs.length ++ "\n".toList
               else "extern const ".toList ++ fmt.SIZE_TYPE ++ " ".toList ++
                 sizeName fmt config (setupSymbol fmax config name) ++ ";\n".toList) ++
              "extern ".toList ++
              dataDeclarator fmt config (setupSymbol fmax config name)
                (setupSymbolMacro fmax name) bs.length ++ ";\n\n".toList,
            room := none, err := false },
        fault := false } := by
  refine ⟨fmtLength_eq_repr bs.length hlen, ?_⟩
  cases hm : config.createMacro <;>
    simp [process, writeNameComments, writeSize, writeContentOutput, writeContentHeader,
      Streams.leave, writeData_written, hm]

/-- C1 at the file `logo.png` of three bytes, with the default configuration. -/
theorem process_split_sinks_witness :
    [0x89, 0x50, 0x4e].length < 2 ^ 31 ∧
    process specFormat 4096 defaultConfig
        (some { length := [0x89, 0x50, 0x4e].length, bytes := [0x89, 0x50, 0x4e] })
        "logo.png".toList (some { buf := [], room := none, err := false })
        (some { buf := [], room := none, err := false }) false false =
      { retval := 0,
        output := some
          { buf := ("/* logo.png */\n" ++
              "const unsigned int logo_png_size = 3;\n" ++
              "const unsigned char logo_png[3] =\n\x7b\n    0x89, 0x50, 0x4e\n\x7d;\n\n").toList,
            room := none, err := false },
        header := some
          { buf := ("/* logo.png */\n" ++
              "extern const unsigned int logo_png_size;\n" ++
              "extern const unsigned char logo_png[3];\n\n").toList,
            room := none, err := false },
        fault := false } :=
  ⟨by decide,
   (process_split_sinks specFormat 4096 defaultConfig "logo.png".toList [0x89, 0x50, 0x4e]
     [] [] false false (by decide)).2.trans (by decide)⟩

/-- The two streams of C1 at the file `logo.png` of three bytes, with the default
configuration. -/
theorem process_split_sinks_example :
    process specFormat 4096 defaultConfig (some { length := 3, bytes := [0x89, 0x50, 0x4e] })
        "logo.png".toList (some { buf := [], room := none, err := false })
        (some { buf := [], room := none, err := false }) false false =
      { retval := 0,
        output := some
          { buf := ("/* logo.png */\n" ++
              "const unsigned int logo_png_size = 3;\n" ++
              "const unsigned char logo_png[3] =\n\x7b\n    0x89, 0x50, 0x4e\n\x7d;\n\n").toList,
            room := none, err := false },
        header := some
          { buf := ("/* logo.png */\n" ++
              "extern const unsigned int logo_png_size;\n" ++
              "extern const unsigned char logo_png[3];\n\n").toList,
            room := none, err := false },
        fault := false } := by
  decide

/-- C2: the code with the header stream alone, at the file `logo.png` of three bytes and
the default configuration: the header receives `const unsigned char logo_png[3]` directly
followed by the brace, without ` =`. -/
theorem process_header_only_misses_equals :
    process specFormat 4096 defaultConfig (some { length := 3, bytes := [0x89, 0x50, 0x4e] })
        "logo.png".toList none (some { buf := [], room := none, err := false }) false false =
      { retval := 0,
        output := none,
        header := some
          { buf := ("/* logo.png */\n" ++
              "const unsigned int logo_png_size = 3;\n" ++
              "const unsigned char logo_png[3]\n\x7b\n    0x89, 0x50, 0x4e\n\x7d;\n\n").toList,
            room := none, err := false },
        fault := false } := by
  decide

/-- C4: the file `logo.png` holding the bytes 0x89 0x50 0x4E, with the hexadecimal format,
snake case, Allman style, the numerical multi-line form and no macro, the output stream
alone, the data type `unsigned char`, a four-space indentation, the size suffix `size` (and
at least three items a line, a name that fits the buffer): the output stream receives the
comment, then `const <SizeType> logo_png_size = 3;` and then the array
`const unsigned char logo_png[3] =`, `{`, four spaces and `0x89, 0x50, 0x4e`, `};`. -/
theorem process_end_to_end (fmt : Format) (fmax : Nat) (w : Bool) (ob : List Char)
    (outputCXX headerCXX : Bool)
    (hT : fmt.DATA_TYPE = "unsigned char".toList) (hI : fmt.DATA_INDENT = "    ".toList)
    (hS : fmt.SIZE_SUFFIX = "size".toList) (hN : 3 ≤ fmt.DATA_PER_LINE) (hf : 8 < fmax) :
    process fmt fmax
        { format := NumberFormat.F_HEXADECIMAL, createMacro := false, camelCase := false,
          allman := true, text := false, singleLine := false, warning := w }
        (some { length := 3, bytes := [0x89, 0x50, 0x4e] }) "logo.png".toList
        (some { buf := ob, room := none, err := false }) none outputCXX headerCXX =
      { retval := 0,
        output := some
          { buf := ob ++ nameComment fmt "logo.png".toList outputCXX ++
              "const ".toList ++ fmt.SIZE_TYPE ++ " logo_png_size = 3;\n".toList ++
              "const unsigned char logo_png[3] =\n\x7b\n    0x89, 0x50, 0x4e\n\x7d;\n\n".toList,
            room := none, err := false },
        header := none,
        fault := false } := by
  have h := process_output_only fmt fmax
    { format := NumberFormat.F_HEXADECIMAL, createMacro := false, camelCase := false,
      allman := true, text := false, singleLine := false, warning := w }
    "logo.png".toList [0x89, 0x50, 0x4e] ob outputCXX headerCXX
  have hsym : setupSymbolSnake fmax "logo.png".toList = "logo_png".toList := by
    have hlen : 0 + "logo.png".toList.length < fmax := by
      have : "logo.png".toList.length = 8 := by decide
      omega
    rw [setupSymbolSnake, snakeLoop_eq_map fmax _ 0 hlen]
    decide
  have h1 : ¬ (fmt.DATA_PER_LINE ≤ 1) := by omega
  have h2 : ¬ (fmt.DATA_PER_LINE ≤ 2) := by omega
  have hx1 : fmtHex 0x89 = "0x89".toList := by decide
  have hx2 : fmtHex 0x50 = "0x50".toList := by decide
  have hx3 : fmtHex 0x4e = "0x4e".toList := by decide
  have hl : fmtLength 3 = "3".toList := by decide
  have hw : written fmt
      { format := NumberFormat.F_HEXADECIMAL, createMacro := false, camelCase := false,
        allman := true, text := false, singleLine := false, warning := w }
      [0x89, 0x50, 0x4e] = "0x89, 0x50, 0x4e".toList := by
    rw [written_eq]
    simp [dataText, numericalText, fmtByte, h1, h2, hx1, hx2, hx3]
  simp only [List.length_cons, List.length_nil] at h
  rw [h, hw]
  simp only [setupSymbol, Bool.false_eq_true, if_false, hsym]
  simp [sizeName, dataDeclarator, openLiteral, closeLiteral, hT, hI, hS, hl]

/-- C4 with the constants of `specFormat`, a buffer of 4096 bytes and an empty stream. -/
theorem process_end_to_end_witness :
    specFormat.DATA_TYPE = "unsigned char".toList ∧ specFormat.DATA_INDENT = "    ".toList ∧
    specFormat.SIZE_SUFFIX = "size".toList ∧ 3 ≤ specFormat.DATA_PER_LINE ∧ 8 < 4096 ∧
    process specFormat 4096
        { format := NumberFormat.F_HEXADECIMAL, createMacro := false, camelCase := false,
          allman := true, text := false, singleLine := false, warning := false }
        (some { length := 3, bytes := [0x89, 0x50, 0x4e] }) "logo.png".toList
        (some { buf := [], room := none, err := false }) none false false =
      { retval := 0,
        output := some
          { buf := [] ++ nameComment specFormat "logo.png".toList false ++
              "const ".toList ++ specFormat.SIZE_TYPE ++ " logo_png_size = 3;\n".toList ++
              "const unsigned char logo_png[3] =\n\x7b\n    0x89, 0x50, 0x4e\n\x7d;\n\n".toList,
            room := none, err := false },
        header := none,
        fault := false } :=
  ⟨rfl, rfl, rfl, by decide, by decide,
   process_end_to_end specFormat 4096 false [] false false rfl rfl rfl (by decide) (by decide)⟩

/-! ## The numerical form read back -/

set_option maxRecDepth 100000 in
theorem fmt_items_ok :
    ∀ b, b < 256 → itemOk (fmtHex b) b = true ∧ itemOk (fmtDec b) b = true := by
  decide

theorem fmtByte_ok (config : Config) {b : Nat} (hb : b < 256) :
    parseNumber (fmtByte config b) = some b ∧
    (∀ c ∈ fmtByte config b, c ≠ ',' ∧ isBlank c = false) ∧ fmtByte config b ≠ [] := by
  have h : itemOk (fmtByte config b) b = true := by
    unfold fmtByte
    cases config.format
    · exact (fmt_items_ok b hb).1
    · exact (fmt_items_ok b hb).2
  simp only [itemOk, Bool.and_eq_true, beq_iff_eq, List.all_eq_true, Bool.not_eq_true',
    beq_eq_false_iff_ne, ne_eq, List.isEmpty_eq_false] at h
  exact ⟨h.1.1, h.1.2, h.2⟩

theorem dropWhile_eq_self_of_none {p : Char → Bool} :
    ∀ (l : List Char), (∀ c ∈ l, p c = false) → l.dropWhile p = l
  | [], _ => rfl
  | a :: l, h => by
    have ha : p a = false := h a (List.mem_cons_self a l)
    simp [List.dropWhile, ha]

theorem dropWhile_blank_append : ∀ (ws item : List Char),
    (∀ c ∈ ws, isBlank c = true) → (∀ c ∈ item, isBlank c = false) →
    (ws ++ item).dropWhile isBlank = item
  | [], item, _, hi => dropWhile_eq_self_of_none item hi
  | a :: ws, item, hw, hi => by
    have ha : isBlank a = true := hw a (List.mem_cons_self a ws)
    have hr := dropWhile_blank_append ws item
      (fun c hc => hw c (List.mem_cons_of_mem a hc)) hi
    simp [List.dropWhile, ha, hr]

theorem trimBlank_append (ws item : List Char) (hw : ∀ c ∈ ws, isBlank c = true)
    (hi : ∀ c ∈ item, isBlank c = false) : trimBlank (ws ++ item) = item := by
  unfold trimBlank
  rw [dropWhile_blank_append ws item hw hi,
    dropWhile_eq_self_of_none item.reverse (fun c hc => hi c (List.mem_reverse.1 hc)),
    List.reverse_reverse]

theorem isBlank_ne_comma {c : Char} (h : isBlank c = true) : c ≠ ',' := by
  intro hc
  rw [hc] at h
  exact absurd h (by decide)

/-- The items of a text that goes on with the separators and items of `numericalText`. -/
theorem split_numericalText (fmt : Format) (config : Config)
    (hi : ∀ c ∈ fmt.DATA_INDENT, isBlank c = true) :
    ∀ (bs : List Nat) (n : Nat) (pre : List Char), (∀ b ∈ bs, b < 256) →
      (∀ c ∈ pre, c ≠ ',') →
      ((pre ++ numericalText fmt config false n bs).splitOn ',').map trimBlank =
        trimBlank pre :: bs.map (fmtByte config)
  | [], n, pre, _, hp => by
    have hs : pre.splitOn ',' = [pre] :=
      List.splitOnP_eq_single _ _ (fun c hc => by simpa using hp c hc)
    simp [numericalText, hs]
  | b :: bs, n, pre, hb, hp => by
    have hb0 : b < 256 := hb b (List.mem_cons_self b bs)
    have hbs : ∀ x ∈ bs, x < 256 := fun x hx => hb x (List.mem_cons_of_mem b hx)
    obtain ⟨_, hitem, _⟩ := fmtByte_ok config hb0
    have hfirst : ∀ (t : List Char), (pre ++ ',' :: t).splitOn ',' = pre :: t.splitOn ',' :=
      fun t => List.splitOnP_first _ pre (fun c hc => by simpa using hp c hc) ',' (by simp) t
    -- the text after the comma: blanks, the item, and the rest
    have step : ∀ (ws : List Char) (m : Nat), (∀ c ∈ ws, isBlank c = true) →
        ((pre ++ ',' :: (ws ++ (fmtByte config b ++ numericalText fmt config false m bs))).splitOn
          ',').map trimBlank = trimBlank pre :: (b :: bs).map (fmtByte config) := by
      intro ws m hws
      have hpre : ∀ c ∈ ws ++ fmtByte config b, c ≠ ',' := by
        intro c hc
        rcases List.mem_append.1 hc with h | h
        · exact isBlank_ne_comma (hws c h)
        · exact (hitem c h).1
      have ih := split_numericalText fmt config hi bs m (ws ++ fmtByte config b) hbs hpre
      rw [trimBlank_append ws _ hws (fun c hc => (hitem c hc).2), List.append_assoc] at ih
      rw [hfirst, List.map_cons, ih, List.map_cons]
    by_cases hc : (!config.singleLine && decide (n ≥ fmt.DATA_PER_LINE)) = true
    · have hws : ∀ c ∈ '\n' :: fmt.DATA_INDENT, isBlank c = true := by
        intro c hc
        rcases List.mem_cons.1 hc with h | h
        · rw [h]; decide
        · exact hi c h
      have := step ('\n' :: fmt.DATA_INDENT) 1 hws
      simpa [numericalText, hc] using this
    · have hws : ∀ c ∈ [' '], isBlank c = true := by
        intro c hc
        rw [List.mem_singleton.1 hc]
        decide
      have := step [' '] (n + 1) hws
      simpa [numericalText, hc] using this

theorem parseItems_map_fmtByte (config : Config) : ∀ (bs : List Nat), (∀ b ∈ bs, b < 256) →
    parseItems (bs.map (fmtByte config)) = some bs
  | [], _ => rfl
  | b :: bs, hb => by
    have h1 := (fmtByte_ok config (hb b (List.mem_cons_self b bs))).1
    have h2 := parseItems_map_fmtByte config bs (fun x hx => hb x (List.mem_cons_of_mem b hx))
    simp [parseItems, h1, h2]

theorem parseLiteral_numericalText (fmt : Format) (config : Config) (bs : List Nat)
    (hb : ∀ b ∈ bs, b < 256) (hi : ∀ c ∈ fmt.DATA_INDENT, isBlank c = true) :
    parseLiteral (numericalText fmt config true 0 bs) = some bs := by
  cases bs with
  | nil => simp [parseLiteral, numericalText, trimBlank]
  | cons b bs =>
    obtain ⟨_, hitem, hne⟩ := fmtByte_ok config (hb b (List.mem_cons_self b bs))
    have hsplit := split_numericalText fmt config hi bs 1 (fmtByte config b)
      (fun x hx => hb x (List.mem_cons_of_mem b hx)) (fun c hc => (hitem c hc).1)
    have htrim : trimBlank (fmtByte config b) = fmtByte config b := by
      simpa using trimBlank_append [] (fmtByte config b) (by simp) (fun c hc => (hitem c hc).2)
    rw [htrim] at hsplit
    have hitems : ((numericalText fmt config true 0 (b :: bs)).splitOn ',').map trimBlank =
        (b :: bs).map (fmtByte config) := by
      simpa [numericalText] using hsplit
    unfold parseLiteral
    simp only [hitems]
    rw [if_neg (by simp [hne])]
    exact parseItems_map_fmtByte config (b :: bs) hb

/-- For a non-empty byte sequence the items themselves, without the convention for a blank
text, are read back as the bytes. -/
theorem parseItems_numericalText (fmt : Format) (config : Config) (bs : List Nat)
    (hne : bs ≠ []) (hb : ∀ b ∈ bs, b < 256)
    (hi : ∀ c ∈ fmt.DATA_INDENT, isBlank c = true) :
    parseItems (((numericalText fmt config true 0 bs).splitOn ',').map trimBlank) =
      some bs := by
  cases bs with
  | nil => exact absurd rfl hne
  | cons b bs =>
    obtain ⟨_, hitem, _⟩ := fmtByte_ok config (hb b (List.mem_cons_self b bs))
    have hsplit := split_numericalText fmt config hi bs 1 (fmtByte config b)
      (fun x hx => hb x (List.mem_cons_of_mem b hx)) (fun c hc => (hitem c hc).1)
    have htrim : trimBlank (fmtByte config b) = fmtByte config b := by
      simpa using trimBlank_append [] (fmtByte config b) (by simp) (fun c hc => (hitem c hc).2)
    rw [htrim] at hsplit
    have hitems : ((numericalText fmt config true 0 (b :: bs)).splitOn ',').map trimBlank =
        (b :: bs).map (fmtByte config) := by
      simpa [numericalText] using hsplit
    rw [hitems]
    exact parseItems_map_fmtByte config (b :: bs) hb

/-- C3: for every byte sequence (values 0 to 255, fewer than `2 ^ 31` of them) read in full,
for both number formats and for `singleLine` set or clear, `writeDataNumerical` returns true,
and splitting the text it wrote at the commas, trimming the blanks and reading every item as
a `0x` hexadecimal or a decimal number gives back the byte sequence (the indentation being
made of blanks). -/
theorem writeDataNumerical_round_trip (fmt : Format) (config : Config) (bs : List Nat)
    (hlen : bs.length < 2 ^ 31)
    (hb : ∀ b ∈ bs, b < 256) (hi : ∀ c ∈ fmt.DATA_INDENT, isBlank c = true) :
    (writeDataNumerical fmt config bs { buf := [], room := none, err := false } bs.length).1 =
      true ∧
    parseLiteral
      (writeDataNumerical fmt config bs { buf := [], room := none, err := false }
        bs.length).2.2.buf = some bs := by
  have _ := hlen
  have h := numericalLoop_unlimited fmt config bs [] true 0 []
  rw [List.append_nil] at h
  rw [writeDataNumerical, h]
  exact ⟨rfl, by simpa using parseLiteral_numericalText fmt config bs hb hi⟩

/-- C3 at the bytes 0, 10, 137, 255 with the decimal format, two items a line and a
four-space indentation. -/
theorem writeDataNumerical_round_trip_witness :
    [0, 10, 137, 255].length < 2 ^ 31 ∧
    (∀ b ∈ [0, 10, 137, 255], b < 256) ∧
    (∀ c ∈ ({ specFormat with DATA_PER_LINE := 2 } : Format).DATA_INDENT, isBlank c = true) ∧
    ((writeDataNumerical { specFormat with DATA_PER_LINE := 2 }
        { defaultConfig with format := NumberFormat.F_DECIMAL } [0, 10, 137, 255]
        { buf := [], room := none, err := false } [0, 10, 137, 255].length).1 = true ∧
     parseLiteral
      (writeDataNumerical { specFormat with DATA_PER_LINE := 2 }
        { defaultConfig with format := NumberFormat.F_DECIMAL } [0, 10, 137, 255]
        { buf := [], room := none, err := false } [0, 10, 137, 255].length).2.2.buf =
      some [0, 10, 137, 255]) :=
  ⟨by decide, by decide, by decide,
   writeDataNumerical_round_trip { specFormat with DATA_PER_LINE := 2 }
     { defaultConfig with format := NumberFormat.F_DECIMAL } [0, 10, 137, 255]
     (by decide) (by decide) (by decide)⟩

/-- The text behind the example above, and the same bytes in hexadecimal on one line. -/
theorem writeDataNumerical_examples :
    (writeDataNumerical { specFormat with DATA_PER_LINE := 2 }
        { defaultConfig with format := NumberFormat.F_DECIMAL } [0, 10, 137, 255]
        { buf := [], room := none, err := false } 4).2.2.buf = "0, 10,\n    137, 255".toList ∧
    (writeDataNumerical specFormat { defaultConfig with singleLine := true } [0, 10, 137, 255]
        { buf := [], room := none, err := false } 4).2.2.buf =
      "0x00, 0x0a, 0x89, 0xff".toList ∧
    parseLiteral "0x00, 0x0a,\n\t0x89,0xff ".toList = some [0, 10, 137, 255] ∧
    parseLiteral "0x00, 0x0g".toList = none ∧
    parseLiteral "0x00, , 1".toList = none := by
  decide

/-! ## Facts about the camel convention -/

theorem case_of_alnum_ascii : ∀ n, n < 128 → isAlnum (Char.ofNat n) = true →
    isUpper (tolower (Char.ofNat n)) = false ∧
    isUpper (toupper (Char.ofNat n)) = !isDigit (Char.ofNat n) ∧
    tolower (toupper (Char.ofNat n)) = tolower (Char.ofNat n) ∧
    tolower (tolower (Char.ofNat n)) = tolower (Char.ofNat n) ∧
    isDigit (toupper (Char.ofNat n)) = isDigit (Char.ofNat n) ∧
    isDigit (tolower (Char.ofNat n)) = isDigit (Char.ofNat n) := by
  decide

theorem case_of_alnum {c : Char} (h : isAlnum c = true) :
    isUpper (tolower c) = false ∧ isUpper (toupper c) = !isDigit c ∧
    tolower (toupper c) = tolower c ∧ tolower (tolower c) = tolower c ∧
    isDigit (toupper c) = isDigit c ∧ isDigit (tolower c) = isDigit c :=
  (ascii_cases (fun c => isAlnum c = true →
      isUpper (tolower c) = false ∧ isUpper (toupper c) = !isDigit c ∧
      tolower (toupper c) = tolower c ∧ tolower (tolower c) = tolower c ∧
      isDigit (toupper c) = isDigit c ∧ isDigit (tolower c) = isDigit c)
    (fun n hn hc => case_of_alnum_ascii n hn hc) c (isAlnum_toNat_lt h)) h

/-- The camel loop skips a run of non-alphanumeric characters and stores the next character
upper-cased when the flag is set or the run is not empty. -/
theorem camelLoop_skip (fmax : Nat) (c : Char) (rest : List Char) (hc : isAlnum c = true)
    (hf : fmax ≠ 1) : ∀ (pre : List Char) (u : Bool), (∀ x ∈ pre, isAlnum x = false) →
    camelLoop fmax (pre ++ c :: rest) 0 u =
      (if u = true ∨ pre ≠ [] then toupper c else tolower c) :: camelLoop fmax rest 1 false
  | [], u, _ => by
    have h1 : ¬ (0 + 1 = fmax) := by omega
    cases u <;> simp [camelLoop, h1, hc]
  | a :: pre, u, hp => by
    have h1 : ¬ (0 + 1 = fmax) := by omega
    have ha : isAlnum a = false := hp a (List.mem_cons_self a pre)
    have ih := camelLoop_skip fmax c rest hc hf pre true
      (fun x hx => hp x (List.mem_cons_of_mem a hx))
    simp [camelLoop, h1, ha, ih]

theorem camelSpec_eq_nil : ∀ (name : List Char) (prev : Option Char),
    (name.filter isAlnum).length = 0 → camelSpec prev name = []
  | [], _, _ => rfl
  | c :: cs, prev, h => by
    by_cases hc : isAlnum c = true
    · simp [List.filter, hc] at h
    · have h2 : (cs.filter isAlnum).length = 0 := by simpa [List.filter, hc] using h
      simp [camelSpec, hc, camelSpec_eq_nil cs (some c) h2]

theorem camelLoop_eq_camelSpec (fmax : Nat) : ∀ (name : List Char) (j : Nat)
    (prev : Option Char), j + (name.filter isAlnum).length < fmax →
    camelLoop fmax name j (pendingUpper prev) = camelSpec prev name
  | [], _, _, _ => rfl
  | c :: cs, j, prev, h => by
    by_cases hc : isAlnum c = true
    · have hlen : (List.filter isAlnum (c :: cs)).length = (cs.filter isAlnum).length + 1 := by
        simp [List.filter, hc]
      have h1 : ¬ (j + 1 = fmax) := by omega
      have ih := camelLoop_eq_camelSpec fmax cs (j + 1) (some c) (by omega)
      have hp : pendingUpper (some c) = false := by simp [pendingUpper, hc]
      rw [hp] at ih
      cases prev with
      | none => simp [camelLoop, camelSpec, h1, hc, ih, pendingUpper]
      | some p =>
        by_cases hpa : isAlnum p = true <;>
          simp [camelLoop, camelSpec, h1, hc, ih, pendingUpper, hpa]
    · have hlen : (List.filter isAlnum (c :: cs)).length = (cs.filter isAlnum).length := by
        simp [List.filter, hc]
      have ih := camelLoop_eq_camelSpec fmax cs j (some c) (by omega)
      have hp : pendingUpper (some c) = true := by simp [pendingUpper, hc]
      rw [hp] at ih
      by_cases h1 : j + 1 = fmax
      · have h0 : (cs.filter isAlnum).length = 0 := by omega
        simp [camelLoop, camelSpec, h1, hc, camelSpec_eq_nil cs (some c) h0]
      · simp [camelLoop, camelSpec, h1, hc, ih]

theorem camelSpec_length : ∀ (name : List Char) (prev : Option Char),
    (camelSpec prev name).length = (name.filter isAlnum).length
  | [], _ => rfl
  | c :: cs, prev => by
    by_cases hc : isAlnum c = true
    · simp [camelSpec, List.filter, hc, camelSpec_length cs (some c)]
    · simp [camelSpec, List.filter, hc, camelSpec_length cs (some c)]

theorem camelSpec_map_tolower : ∀ (name : List Char) (prev : Option Char),
    (camelSpec prev name).map tolower = (name.filter isAlnum).map tolower
  | [], _ => rfl
  | c :: cs, prev => by
    by_cases hc : isAlnum c = true
    · have hcase := case_of_alnum hc
      cases prev with
      | none => simp [camelSpec, List.filter, hc, camelSpec_map_tolower cs (some c), hcase.2.2.2.1]
      | some p =>
        by_cases hpa : isAlnum p = true <;>
          simp [camelSpec, List.filter, hc, camelSpec_map_tolower cs (some c), hpa,
            hcase.2.2.2.1, hcase.2.2.1]
    · simp [camelSpec, List.filter, hc, camelSpec_map_tolower cs (some c)]

/-! ## The camel convention and the truncation: properties -/

theorem isUpper_underscore : isUpper '_' = false := by decide

/-- C11, as the claim states it, fails: the name `-foo.bin` gives `FooBin`, which starts
with an upper-case letter. -/
theorem setupSymbolCamel_leading_separator :
    setupSymbolCamel 4096 "-foo.bin".toList = "FooBin".toList ∧
    startsWithUpper (setupSymbolCamel 4096 "-foo.bin".toList) = true := by
  decide

/-- C11, amended: for a name made of a run `pre` of non-alphanumeric characters, an
alphanumeric character `c` and the rest, the first character of the result of
`setupSymbolCamel` is `_` when `c` is a digit, `c` lower-cased when the run is empty and `c`
upper-cased when the run is not empty; so the result starts with an upper-case letter exactly
when the name starts with a non-alphanumeric character and `c` is a letter. -/
theorem setupSymbolCamel_first (fmax : Nat) (pre rest : List Char) (c : Char)
    (hpre : ∀ x ∈ pre, isAlnum x = false) (hc : isAlnum c = true) (hf : fmax ≠ 1) :
    (setupSymbolCamel fmax (pre ++ c :: rest)).head? =
      some (if isDigit c = true then '_' else if pre = [] then tolower c else toupper c) ∧
    (startsWithUpper (setupSymbolCamel fmax (pre ++ c :: rest)) = true ↔
      pre ≠ [] ∧ isDigit c = false) := by
  have hloop := camelLoop_skip fmax c rest hc hf pre false hpre
  have hcase := case_of_alnum hc
  rw [setupSymbolCamel, hloop]
  by_cases hp : pre = []
  · by_cases hd : isDigit c = true
    · simp [fixLeadingDigit, startsWithUpper, hp, hd, hcase.2.2.2.2.2, isUpper_underscore]
    · simp [fixLeadingDigit, startsWithUpper, hp, hd, hcase.2.2.2.2.2, hcase.1]
  · by_cases hd : isDigit c = true
    · simp [fixLeadingDigit, startsWithUpper, hp, hd, hcase.2.2.2.2.1, isUpper_underscore]
    · simp [fixLeadingDigit, startsWithUpper, hp, hd, hcase.2.2.2.2.1, hcase.2.1]

/-- C11, amended, at the name `-foo.bin`. -/
theorem setupSymbolCamel_first_witness :
    (∀ x ∈ "-".toList, isAlnum x = false) ∧ isAlnum 'f' = true ∧ 4096 ≠ 1 ∧
    ((setupSymbolCamel 4096 ("-".toList ++ 'f' :: "oo.bin".toList)).head? =
      some (if isDigit 'f' = true then '_'
            else if "-".toList = [] then tolower 'f' else toupper 'f') ∧
     (startsWithUpper (setupSymbolCamel 4096 ("-".toList ++ 'f' :: "oo.bin".toList)) = true ↔
      "-".toList ≠ [] ∧ isDigit 'f' = false)) :=
  ⟨by decide, by decide, by decide,
   setupSymbolCamel_first 4096 "-".toList "oo.bin".toList 'f' (by decide) (by decide)
     (by decide)⟩

/-- C12: for a file name with fewer alphanumeric characters than the size of the buffer, the
result of `setupSymbolCamel` is the camel mapping of the specification (`camelSpec`) with the
fix of a leading digit; it has one character for every alphanumeric character of the name, and
up to the case of the letters the mapping is the list of the alphanumeric characters of the
name, in order. -/
theorem setupSymbolCamel_mapping (fmax : Nat) (name : List Char)
    (h : (name.filter isAlnum).length < fmax) :
    setupSymbolCamel fmax name = fixLeadingDigit (camelSpec none name) ∧
    (setupSymbolCamel fmax name).length = (name.filter isAlnum).length ∧
    (camelSpec none name).map tolower = (name.filter isAlnum).map tolower := by
  have hloop : camelLoop fmax name 0 false = camelSpec none name :=
    camelLoop_eq_camelSpec fmax name 0 none (by omega)
  refine ⟨?_, ?_, camelSpec_map_tolower name none⟩
  · rw [setupSymbolCamel, hloop]
  · rw [setupSymbolCamel, hloop, fixLeadingDigit_length, camelSpec_length]

/-- C12 at the name `a-bC`, which gives `aBc`. -/
theorem setupSymbolCamel_mapping_witness :
    ("a-bC".toList.filter isAlnum).length < 4096 ∧
    setupSymbolCamel 4096 "a-bC".toList = "aBc".toList ∧
    camelSpec none "a-bC".toList = "aBc".toList ∧
    (setupSymbolCamel 4096 "a-bC".toList = fixLeadingDigit (camelSpec none "a-bC".toList) ∧
     (setupSymbolCamel 4096 "a-bC".toList).length = ("a-bC".toList.filter isAlnum).length ∧
     (camelSpec none "a-bC".toList).map tolower =
       ("a-bC".toList.filter isAlnum).map tolower) :=
  ⟨by decide, by decide, by decide, setupSymbolCamel_mapping 4096 "a-bC".toList (by decide)⟩

/-! ## Truncation -/

theorem fixLeadingDigit_take (n : Nat) (l : List Char) :
    fixLeadingDigit (l.take n) = (fixLeadingDigit l).take n := by
  cases n with
  | zero => simp [fixLeadingDigit]
  | succ k =>
    cases l with
    | nil => simp [fixLeadingDigit]
    | cons a as =>
      simp only [List.take_succ_cons, fixLeadingDigit]
      split <;> simp

theorem snakeLoop_eq_take (fmax : Nat) : ∀ (name : List Char) (j : Nat), j < fmax →
    snakeLoop fmax name j = (name.map snakeChar).take (fmax - 1 - j)
  | [], _, _ => by simp [snakeLoop]
  | a :: rest, j, h => by
    by_cases h1 : j + 1 = fmax
    · have h0 : fmax - 1 - j = 0 := by omega
      simp [snakeLoop, h1, h0]
    · have hs : fmax - 1 - j = (fmax - 1 - (j + 1)) + 1 := by omega
      have ih := snakeLoop_eq_take fmax rest (j + 1) (by omega)
      simp only [snakeLoop, h1, if_false, ih, List.map_cons, hs, List.take_succ_cons, snakeChar]

theorem macroLoop_eq_take (fmax : Nat) : ∀ (name : List Char) (j : Nat), j < fmax →
    macroLoop fmax name j = (name.map macroChar).take (fmax - 1 - j)
  | [], _, _ => by simp [macroLoop]
  | a :: rest, j, h => by
    by_cases h1 : j + 1 = fmax
    · have h0 : fmax - 1 - j = 0 := by omega
      simp [macroLoop, h1, h0]
    · have hs : fmax - 1 - j = (fmax - 1 - (j + 1)) + 1 := by omega
      have ih := macroLoop_eq_take fmax rest (j + 1) (by omega)
      simp only [macroLoop, h1, if_false, ih, List.map_cons, hs, List.take_succ_cons, macroChar]

theorem camelLoop_unbounded_index : ∀ (name : List Char) (j k : Nat) (u : Bool),
    camelLoop 0 name j u = camelLoop 0 name k u
  | [], _, _, _ => rfl
  | a :: rest, j, k, u => by
    simp only [camelLoop, Nat.add_one_ne_zero, if_false]
    rw [camelLoop_unbounded_index rest (j + 1) (k + 1) false,
      camelLoop_unbounded_index rest j k true]

theorem camelLoop_eq_take (fmax : Nat) : ∀ (name : List Char) (j : Nat) (u : Bool), j < fmax →
    camelLoop fmax name j u = (camelLoop 0 name j u).take (fmax - 1 - j)
  | [], _, _, _ => by simp [camelLoop]
  | a :: rest, j, u, h => by
    by_cases h1 : j + 1 = fmax
    · have h0 : fmax - 1 - j = 0 := by omega
      simp [camelLoop, h1, h0]
    · have hs : fmax - 1 - j = (fmax - 1 - (j + 1)) + 1 := by omega
      have ih1 := camelLoop_eq_take fmax rest (j + 1) false (by omega)
      have ih2 := camelLoop_eq_take fmax rest j true h
      simp only [camelLoop, h1, if_false, Nat.add_one_ne_zero, ih1, ih2]
      split
      · rw [hs, List.take_succ_cons]
      · rfl

/-- C18: for every file name and a buffer of at least one byte, the symbol of each of the
three conventions has at most `FILENAME_MAX - 1` characters and is made of the first
`FILENAME_MAX - 1` characters of the symbol the same function gives with a buffer (`big`) that
the whole name fits in. -/
theorem setupSymbol_truncation (fmax big : Nat) (name : List Char) (hf : 0 < fmax)
    (hbig : name.length < big) :
    (setupSymbolSnake fmax name).length ≤ fmax - 1 ∧
    (setupSymbolCamel fmax name).length ≤ fmax - 1 ∧
    (setupSymbolMacro fmax name).length ≤ fmax - 1 ∧
    setupSymbolSnake fmax name = (setupSymbolSnake big name).take (fmax - 1) ∧
    setupSymbolCamel fmax name = (setupSymbolCamel big name).take (fmax - 1) ∧
    setupSymbolMacro fmax name = (setupSymbolMacro big name).take (fmax - 1) := by
  have hs : setupSymbolSnake fmax name = (setupSymbolSnake big name).take (fmax - 1) := by
    rw [setupSymbolSnake, setupSymbolSnake, snakeLoop_eq_take fmax name 0 hf,
      snakeLoop_eq_map big name 0 (by omega), fixLeadingDigit_take]
    rfl
  have hc : setupSymbolCamel fmax name = (setupSymbolCamel big name).take (fmax - 1) := by
    rw [setupSymbolCamel, setupSymbolCamel, camelLoop_eq_take fmax name 0 false hf,
      camelLoop_eq_unbounded big name 0 false (by omega), fixLeadingDigit_take]
    rfl
  have hm : setupSymbolMacro fmax name = (setupSymbolMacro big name).take (fmax - 1) := by
    rw [setupSymbolMacro, setupSymbolMacro, macroLoop_eq_take fmax name 0 hf,
      macroLoop_eq_map big name 0 (by omega)]
    rfl
  refine ⟨?_, ?_, ?_, hs, hc, hm⟩
  · rw [hs, List.length_take]; exact Nat.min_le_left _ _
  · rw [hc, List.length_take]; exact Nat.min_le_left _ _
  · rw [hm, List.length_take]; exact Nat.min_le_left _ _

/-- C18 at the name `my-file.bin` with a buffer of five bytes: four characters are kept. -/
theorem setupSymbol_truncation_witness :
    0 < 5 ∧ "my-file.bin".toList.length < 4096 ∧
    setupSymbolSnake 5 "my-file.bin".toList = "my_f".toList ∧
    setupSymbolCamel 5 "my-file.bin".toList = "myFi".toList ∧
    setupSymbolMacro 5 "my-file.bin".toList = "MY_F".toList ∧
    ((setupSymbolSnake 5 "my-file.bin".toList).length ≤ 5 - 1 ∧
     (setupSymbolCamel 5 "my-file.bin".toList).length ≤ 5 - 1 ∧
     (setupSymbolMacro 5 "my-file.bin".toList).length ≤ 5 - 1 ∧
     setupSymbolSnake 5 "my-file.bin".toList =
       (setupSymbolSnake 4096 "my-file.bin".toList).take (5 - 1) ∧
     setupSymbolCamel 5 "my-file.bin".toList =
       (setupSymbolCamel 4096 "my-file.bin".toList).take (5 - 1) ∧
     setupSymbolMacro 5 "my-file.bin".toList =
       (setupSymbolMacro 4096 "my-file.bin".toList).take (5 - 1)) :=
  ⟨by decide, by decide, by decide, by decide, by decide,
   setupSymbol_truncation 5 4096 "my-file.bin".toList (by decide) (by decide)⟩

/-! ## The text form: properties -/

/-- The flag `newLine` plays no part between two bytes: the text of `writeDataText` is made
byte by byte, with the split after a newline or carriage return unless `singleLine` is set. -/
theorem textText_eq_flatten (fmt : Format) (config : Config) :
    ∀ (bs : List Nat) (newLine : Bool), (config.singleLine = true ∨ newLine = false) →
      textText fmt config newLine bs =
        (bs.map (fun b => escapeByte b ++
          (if config.singleLine = false ∧ (b = 10 ∨ b = 13) then lineSplit fmt else []))).flatten
  | [], _, _ => rfl
  | b :: bs, newLine, h => by
    cases hs : config.singleLine
    · have hn : newLine = false := by
        rcases h with h | h
        · rw [hs] at h; exact absurd h (by decide)
        · exact h
      have ih := textText_eq_flatten fmt config bs false (Or.inr rfl)
      by_cases hb : b = 10 ∨ b = 13
      · simp [textText, hs, hb, hn, ih, lineSplit]
      · simp [textText, hs, hb, hn, ih, lineSplit]
    · have ih := fun nl => textText_eq_flatten fmt config bs nl (Or.inl hs)
      simp [textText, hs, ih]

set_option maxRecDepth 100000 in
theorem escapeByte_plain : ∀ b, b < 256 → b ∉ [10, 13, 7, 8, 12, 9, 11, 34, 92] →
    escapeByte b = [Char.ofNat b] ∧ (Char.ofNat b).toNat = b := by
  decide

/-- C13: with `singleLine` set, for every sequence of fewer than `2 ^ 31` bytes read in full,
`writeDataText` returns true and the text it wrote is the concatenation, in order, of the
texts `escapeByte` gives for the bytes; the nine special bytes give their two-character
escapes and every other byte value gives the one character with that value. -/
theorem writeDataText_escapes (fmt : Format) (config : Config) (bs : List Nat)
    (hlen : bs.length < 2 ^ 31) (hs : config.singleLine = true) :
    writeDataText fmt config bs { buf := [], room := none, err := false } bs.length =
      (true, [], { buf := (bs.map escapeByte).flatten, room := none, err := false }) ∧
    escapeByte 10 = "\\n".toList ∧ escapeByte 13 = "\\r".toList ∧
    escapeByte 7 = "\\a".toList ∧ escapeByte 8 = "\\b".toList ∧
    escapeByte 12 = "\\f".toList ∧ escapeByte 9 = "\\t".toList ∧
    escapeByte 11 = "\\v".toList ∧ escapeByte 34 = "\\\x22".toList ∧
    escapeByte 92 = "\\\\".toList ∧
    (∀ b, b < 256 → b ∉ [10, 13, 7, 8, 12, 9, 11, 34, 92] →
      escapeByte b = [Char.ofNat b] ∧ (Char.ofNat b).toNat = b) := by
  have _ := hlen
  have h := textLoop_unlimited fmt config bs [] false []
  rw [List.append_nil] at h
  refine ⟨?_, by decide, by decide, by decide, by decide, by decide, by decide, by decide,
    by decide, by decide, escapeByte_plain⟩
  rw [writeDataText, h, textText_eq_flatten fmt config bs false (Or.inl hs)]
  simp [hs]

/-- C13 at the bytes `a`, newline, NUL, double quote, 0x80. -/
theorem writeDataText_escapes_witness :
    [97, 10, 0, 34, 128].length < 2 ^ 31 ∧
    ({ defaultConfig with singleLine := true } : Config).singleLine = true ∧
    (writeDataText specFormat { defaultConfig with singleLine := true } [97, 10, 0, 34, 128]
      { buf := [], room := none, err := false } 5).2.2.buf =
      ['a', '\\', 'n', Char.ofNat 0, '\\', '\x22', Char.ofNat 128] ∧
    (writeDataText specFormat { defaultConfig with singleLine := true } [97, 10, 0, 34, 128]
        { buf := [], room := none, err := false } [97, 10, 0, 34, 128].length =
      (true, [], { buf := ([97, 10, 0, 34, 128].map escapeByte).flatten, room := none,
                   err := false }) ∧
    escapeByte 10 = "\\n".toList ∧ escapeByte 13 = "\\r".toList ∧
    escapeByte 7 = "\\a".toList ∧ escapeByte 8 = "\\b".toList ∧
    escapeByte 12 = "\\f".toList ∧ escapeByte 9 = "\\t".toList ∧
    escapeByte 11 = "\\v".toList ∧ escapeByte 34 = "\\\x22".toList ∧
    escapeByte 92 = "\\\\".toList ∧
    (∀ b, b < 256 → b ∉ [10, 13, 7, 8, 12, 9, 11, 34, 92] →
      escapeByte b = [Char.ofNat b] ∧ (Char.ofNat b).toNat = b)) :=
  ⟨by decide, rfl, by decide,
   writeDataText_escapes specFormat { defaultConfig with singleLine := true }
     [97, 10, 0, 34, 128] (by decide) rfl⟩

/-- C17: for every sequence of fewer than `2 ^ 31` bytes read in full, `writeDataText`
returns true and the text it wrote is made byte by byte: the escape of the byte, followed,
when `singleLine` is clear and the byte is a newline or a carriage return (and for no other
byte), by the closing quote, a newline, the indentation and the opening quote. With
`singleLine` set no such split is written. -/
theorem writeDataText_line_splits (fmt : Format) (config : Config) (bs : List Nat)
    (hlen : bs.length < 2 ^ 31) :
    writeDataText fmt config bs { buf := [], room := none, err := false } bs.length =
      (true, [],
       { buf := (bs.map (fun b => escapeByte b ++
            (if config.singleLine = false ∧ (b = 10 ∨ b = 13) then
               '\x22' :: '\n' :: (fmt.DATA_INDENT ++ ['\x22'])
             else []))).flatten,
         room := none, err := false }) := by
  have _ := hlen
  have h := textLoop_unlimited fmt config bs [] false []
  rw [List.append_nil] at h
  have hc : config.singleLine = true ∨ false = false := Or.inr rfl
  rw [writeDataText, h, textText_eq_flatten fmt config bs false hc]
  simp [lineSplit]

/-- C17 at a carriage return followed by a newline between two letters, `singleLine` clear:
two splits, with a segment holding only the escape of the newline between them. -/
theorem writeDataText_line_splits_witness :
    [97, 13, 10, 98].length < 2 ^ 31 ∧
    writeDataText specFormat { defaultConfig with text := true } [97, 13, 10, 98]
        { buf := [], room := none, err := false } [97, 13, 10, 98].length =
      (true, [],
       { buf := "a\\r\x22\n    \x22\\n\x22\n    \x22b".toList, room := none, err := false }) :=
  ⟨by decide,
   (writeDataText_line_splits specFormat { defaultConfig with text := true } [97, 13, 10, 98]
     (by decide)).trans (by decide)⟩

/-- The splits of C17 at a carriage return followed by a newline (two splits, with a segment
holding only the escape of the newline between them), and the same bytes with `singleLine`
set. -/
theorem writeDataText_line_splits_example :
    (writeDataText specFormat { defaultConfig with text := true } [97, 13, 10, 98]
      { buf := [], room := none, err := false } 4).2.2.buf =
      "a\\r\x22\n    \x22\\n\x22\n    \x22b".toList ∧
    (writeDataText specFormat { defaultConfig with text := true, singleLine := true }
      [97, 13, 10, 98] { buf := [], room := none, err := false } 4).2.2.buf =
      "a\\r\\nb".toList := by
  decide

/-! ## Facts about the layout of the numerical form -/

theorem joinWith_cons_flatten (item : Nat → List Char) (x : Nat) : ∀ (xs : List Nat),
    joinWith [',', ' '] ((x :: xs).map item) =
      item x ++ (xs.map (fun b => ',' :: ' ' :: item b)).flatten
  | [] => by simp [joinWith]
  | y :: ys => by
    have ih := joinWith_cons_flatten item y ys
    simp only [List.map_cons] at ih
    simp [joinWith, ih]

/-- With `singleLine` set every separator is a comma and a space. -/
theorem numericalText_single (fmt : Format) (config : Config) (hs : config.singleLine = true) :
    ∀ (bs : List Nat) (n : Nat), numericalText fmt config false n bs =
      (bs.map (fun b => ',' :: ' ' :: fmtByte config b)).flatten
  | [], _ => rfl
  | b :: bs, n => by
    simp [numericalText, hs, numericalText_single fmt config hs bs (n + 1)]

/-- Within a line every separator is a comma and a space. -/
theorem numericalText_within_line (fmt : Format) (config : Config) (rest : List Nat) :
    ∀ (xs : List Nat) (n : Nat), n + xs.length ≤ fmt.DATA_PER_LINE →
      numericalText fmt config false n (xs ++ rest) =
        (xs.map (fun b => ',' :: ' ' :: fmtByte config b)).flatten ++
          numericalText fmt config false (n + xs.length) rest
  | [], _, _ => by simp
  | x :: xs, n, h => by
    have hn : ¬ (fmt.DATA_PER_LINE ≤ n) := by simp only [List.length_cons] at h; omega
    have ih := numericalText_within_line fmt config rest xs (n + 1)
      (by simp only [List.length_cons] at h; omega)
    have e : n + 1 + xs.length = n + (xs.length + 1) := by omega
    simp [numericalText, hn, ih, e]

/-- At the end of a line the separator is a comma, a newline and the indentation. -/
theorem numericalText_line_break (fmt : Format) (config : Config)
    (hs : config.singleLine = false) (b : Nat) (rest : List Nat) (n : Nat)
    (hn : fmt.DATA_PER_LINE ≤ n) :
    numericalText fmt config false n (b :: rest) =
      (',' :: '\n' :: fmt.DATA_INDENT) ++
        (fmtByte config b ++ numericalText fmt config false 1 rest) := by
  simp [numericalText, hs, hn]

theorem numericalText_lines (fmt : Format) (config : Config) (hs : config.singleLine = false)
    (hN : 1 ≤ fmt.DATA_PER_LINE) : ∀ (fuel : Nat) (l : List Nat) (b : Nat), l.length ≤ fuel →
      fmtByte config b ++ numericalText fmt config false 1 l =
        joinWith (',' :: '\n' :: fmt.DATA_INDENT)
          ((groupLinesAux fmt.DATA_PER_LINE (fuel + 1) ((b :: l).map (fmtByte config))).map
            (joinWith [',', ' '])) := by
  intro fuel
  induction fuel with
  | zero =>
    intro l b hl
    have : l = [] := List.length_eq_zero.1 (Nat.le_zero.1 hl)
    subst this
    obtain ⟨m, hm⟩ : ∃ m, fmt.DATA_PER_LINE = m + 1 := ⟨fmt.DATA_PER_LINE - 1, by omega⟩
    simp [numericalText, groupLinesAux, joinWith, hm]
  | succ f ih =>
    intro l b hl
    obtain ⟨m, hm⟩ : ∃ m, fmt.DATA_PER_LINE = m + 1 := ⟨fmt.DATA_PER_LINE - 1, by omega⟩
    have hsplit : l = l.take m ++ l.drop m := (List.take_append_drop m l).symm
    have hlen : (l.take m).length ≤ m := by simp [List.length_take]
    have hwithin := numericalText_within_line fmt config (l.drop m) (l.take m) 1
      (by omega)
    rw [← hsplit] at hwithin
    have hline : (List.map (fmtByte config) (b :: l)).take fmt.DATA_PER_LINE =
        (b :: l.take m).map (fmtByte config) := by
      simp [hm, List.map_take]
    have hdrop : (List.map (fmtByte config) (b :: l)).drop fmt.DATA_PER_LINE =
        (l.drop m).map (fmtByte config) := by
      simp [hm, List.map_drop]
    have hgroup : groupLinesAux fmt.DATA_PER_LINE (f + 1 + 1) ((b :: l).map (fmtByte config)) =
        (b :: l.take m).map (fmtByte config) ::
          groupLinesAux fmt.DATA_PER_LINE (f + 1) ((l.drop m).map (fmtByte config)) := by
      rw [← hline, ← hdrop]
      rfl
    rw [hgroup, hwithin, List.map_cons, joinWith_cons_flatten]
    cases hr : l.drop m with
    | nil => simp [numericalText, groupLinesAux, joinWith]
    | cons b2 r =>
      have hfull : (l.take m).length = m := by
        have : m < l.length := by
          by_contra hc
          have : l.drop m = [] := List.drop_eq_nil_of_le (by omega)
          rw [this] at hr
          exact absurd hr (by simp)
        rw [List.length_take]; omega
      have hrl : r.length ≤ f := by
        have : (l.drop m).length = r.length + 1 := by rw [hr]; simp
        have h2 : (l.drop m).length ≤ l.length := by simp [List.length_drop]
        omega
      have hbreak := numericalText_line_break fmt config hs b2 r (1 + (l.take m).length)
        (by omega)
      rw [hbreak, ih r b2 hrl]
      have hne : ∃ g gs, groupLinesAux fmt.DATA_PER_LINE (f + 1)
          (List.map (fmtByte config) (b2 :: r)) = g :: gs := ⟨_, _, rfl⟩
      obtain ⟨g, gs, hg⟩ := hne
      rw [hg]
      simp [joinWith]

/-- The lines of `groupLines` put end to end are the items; every line holds between one and
`n` items and every line but the last holds `n` items. -/
theorem groupLinesAux_spec {α : Type} (n : Nat) (hn : 1 ≤ n) : ∀ (fuel : Nat) (l : List α),
    l.length ≤ fuel →
      (groupLinesAux n fuel l).flatten = l ∧
      (∀ line ∈ groupLinesAux n fuel l, 1 ≤ line.length ∧ line.length ≤ n) ∧
      (∀ line ∈ (groupLinesAux n fuel l).dropLast, line.length = n)
  | 0, l, h => by
    have : l = [] := List.length_eq_zero.1 (Nat.le_zero.1 h)
    subst this
    simp [groupLinesAux]
  | _ + 1, [], _ => by simp [groupLinesAux]
  | fuel + 1, x :: xs, h => by
    have hd : ((x :: xs).drop n).length ≤ fuel := by
      simp only [List.length_drop, List.length_cons] at h ⊢
      omega
    obtain ⟨h1, h2, h3⟩ := groupLinesAux_spec n hn fuel ((x :: xs).drop n) hd
    refine ⟨?_, ?_, ?_⟩
    · simp only [groupLinesAux, List.flatten_cons, h1, List.take_append_drop]
    · intro line hl
      simp only [groupLinesAux, List.mem_cons] at hl
      rcases hl with hl | hl
      · rw [hl]
        simp only [List.length_take, List.length_cons]
        omega
      · exact h2 line hl
    · intro line hl
      simp only [groupLinesAux] at hl
      cases hg : groupLinesAux n fuel ((x :: xs).drop n) with
      | nil => simp [hg] at hl
      | cons g gs =>
        rw [hg, List.dropLast_cons₂] at hl
        rcases List.mem_cons.1 hl with hl | hl
        · have hne : (x :: xs).drop n ≠ [] := by
            intro he
            rw [he] at hg
            cases fuel <;> simp [groupLinesAux] at hg
          have hlt : n < (x :: xs).length := by
            by_contra hc
            exact hne (List.drop_eq_nil_of_le (by omega))
          rw [hl, List.length_take]
          omega
        · rw [hg] at h3
          exact h3 line hl

/-! ## The layout of the numerical form: properties -/

set_option maxRecDepth 100000 in
theorem fmtHex_digits : ∀ b, b < 256 →
    fmtHex b = ['0', 'x', hexDigit (b / 16), hexDigit (b % 16)] := by
  decide

theorem mem_joinWith (sep : List Char) (c : Char) : ∀ (ls : List (List Char)),
    c ∈ joinWith sep ls → c ∈ sep ∨ ∃ l ∈ ls, c ∈ l
  | [], h => by simp [joinWith] at h
  | [x], h => Or.inr ⟨x, List.mem_singleton.2 rfl, by simpa [joinWith] using h⟩
  | x :: y :: ys, h => by
    simp only [joinWith, List.mem_append] at h
    rcases h with (h | h) | h
    · exact Or.inr ⟨x, List.mem_cons_self _ _, h⟩
    · exact Or.inl h
    · rcases mem_joinWith sep c (y :: ys) h with h2 | ⟨l, hl, hc⟩
      · exact Or.inl h2
      · exact Or.inr ⟨l, List.mem_cons_of_mem _ hl, hc⟩

/-- With `singleLine` set the text of the numerical form is the items joined by a comma and a
space. -/
theorem numericalText_join_single (fmt : Format) (config : Config)
    (hs : config.singleLine = true) (bs : List Nat) :
    numericalText fmt config true 0 bs = joinWith [',', ' '] (bs.map (fmtByte config)) := by
  cases bs with
  | nil => rfl
  | cons b l =>
    rw [joinWith_cons_flatten]
    simp [numericalText, numericalText_single fmt config hs l 1]

/-- With `singleLine` clear and at least one item a line the text of the numerical form is
the lines joined by a comma, a newline and the indentation, every line being its items joined
by a comma and a space. -/
theorem numericalText_join_lines (fmt : Format) (config : Config)
    (hs : config.singleLine = false) (hN : 1 ≤ fmt.DATA_PER_LINE) (bs : List Nat) :
    numericalText fmt config true 0 bs =
      joinWith (',' :: '\n' :: fmt.DATA_INDENT)
        ((groupLines fmt.DATA_PER_LINE (bs.map (fmtByte config))).map
          (joinWith [',', ' '])) := by
  cases bs with
  | nil => rfl
  | cons b l =>
    have := numericalText_lines fmt config hs hN l.length l b (Nat.le_refl _)
    simpa [numericalText, groupLines] using this

/-- C16: for every byte sequence (values 0 to 255, fewer than `2 ^ 31` of them) read in full:
in the hexadecimal format a byte is `0x` and two lower-case hexadecimal digits, in the
decimal format its decimal value; with `singleLine` set the text written by
`writeDataNumerical` is the items joined by a comma and a space, and holds no newline; with
`singleLine` clear and `N` items a line (`N` at least 1) it is the lines joined by a comma, a
newline and the indentation, every line being its items joined by a comma and a space, where
the lines are the items in order, between 1 and `N` a line and `N` on every line but the
last. -/
theorem writeDataNumerical_layout (fmt : Format) (config : Config) (bs : List Nat)
    (hlen : bs.length < 2 ^ 31) (hb : ∀ b ∈ bs, b < 256) :
    (config.format = NumberFormat.F_HEXADECIMAL → ∀ b, b < 256 →
      fmtByte config b = ['0', 'x', hexDigit (b / 16), hexDigit (b % 16)]) ∧
    (config.format = NumberFormat.F_DECIMAL → ∀ b, fmtByte config b = (Nat.repr b).toList) ∧
    (config.singleLine = true →
      (writeDataNumerical fmt config bs { buf := [], room := none, err := false }
        bs.length).2.2.buf = joinWith [',', ' '] (bs.map (fmtByte config)) ∧
      '\n' ∉ (writeDataNumerical fmt config bs { buf := [], room := none, err := false }
        bs.length).2.2.buf) ∧
    (config.singleLine = false → 1 ≤ fmt.DATA_PER_LINE →
      (writeDataNumerical fmt config bs { buf := [], room := none, err := false }
        bs.length).2.2.buf =
        joinWith (',' :: '\n' :: fmt.DATA_INDENT)
          ((groupLines fmt.DATA_PER_LINE (bs.map (fmtByte config))).map
            (joinWith [',', ' '])) ∧
      (groupLines fmt.DATA_PER_LINE (bs.map (fmtByte config))).flatten =
        bs.map (fmtByte config) ∧
      (∀ line ∈ groupLines fmt.DATA_PER_LINE (bs.map (fmtByte config)),
        1 ≤ line.length ∧ line.length ≤ fmt.DATA_PER_LINE) ∧
      (∀ line ∈ (groupLines fmt.DATA_PER_LINE (bs.map (fmtByte config))).dropLast,
        line.length = fmt.DATA_PER_LINE)) := by
  have _ := hlen
  have h := numericalLoop_unlimited fmt config bs [] true 0 []
  rw [List.append_nil] at h
  have htext : (writeDataNumerical fmt config bs { buf := [], room := none, err := false }
      bs.length).2.2.buf = numericalText fmt config true 0 bs := by
    rw [writeDataNumerical, h]
    simp
  rw [htext]
  refine ⟨?_, ?_, ?_, ?_⟩
  · intro hf b hlt
    simp only [fmtByte, hf]
    exact fmtHex_digits b hlt
  · intro hf b
    simp only [fmtByte, hf]
    rfl
  · intro hs
    have hjoin : numericalText fmt config true 0 bs =
        joinWith [',', ' '] (bs.map (fmtByte config)) := by
      cases bs with
      | nil => rfl
      | cons b l =>
        rw [joinWith_cons_flatten]
        simp [numericalText, numericalText_single fmt config hs l 1]
    refine ⟨hjoin, ?_⟩
    rw [hjoin]
    intro hmem
    rcases mem_joinWith _ _ _ hmem with hsep | ⟨l, hl, hc⟩
    · simp at hsep
    · obtain ⟨b, hbm, rfl⟩ := List.mem_map.1 hl
      have := ((fmtByte_ok config (hb b hbm)).2.1 _ hc).2
      exact absurd this (by decide)
  · intro hs hN
    refine ⟨?_, ?_⟩
    · cases bs with
      | nil => rfl
      | cons b l =>
        have := numericalText_lines fmt config hs hN l.length l b (Nat.le_refl _)
        simpa [numericalText, groupLines] using this
    · exact groupLinesAux_spec fmt.DATA_PER_LINE hN _ _ (Nat.le_refl _)

/-- C16 at five bytes with two items a line, in both forms. -/
theorem writeDataNumerical_layout_witness :
    [0, 10, 137, 255, 7].length < 2 ^ 31 ∧
    (∀ b ∈ [0, 10, 137, 255, 7], b < 256) ∧
    (writeDataNumerical { specFormat with DATA_PER_LINE := 2 } defaultConfig
      [0, 10, 137, 255, 7] { buf := [], room := none, err := false } 5).2.2.buf =
      "0x00, 0x0a,\n    0x89, 0xff,\n    0x07".toList ∧
    (writeDataNumerical { specFormat with DATA_PER_LINE := 2 }
      { defaultConfig with singleLine := true, format := NumberFormat.F_DECIMAL }
      [0, 10, 137, 255, 7] { buf := [], room := none, err := false } 5).2.2.buf =
      "0, 10, 137, 255, 7".toList ∧
    groupLines 2 ([0, 10, 137, 255, 7].map (fmtByte defaultConfig)) =
      [["0x00".toList, "0x0a".toList], ["0x89".toList, "0xff".toList], ["0x07".toList]] ∧
    ({ defaultConfig with format := NumberFormat.F_HEXADECIMAL } : Config).singleLine = false ∧
    1 ≤ ({ specFormat with DATA_PER_LINE := 2 } : Format).DATA_PER_LINE ∧
    ((writeDataNumerical { specFormat with DATA_PER_LINE := 2 } defaultConfig
        [0, 10, 137, 255, 7] { buf := [], room := none, err := false }
        [0, 10, 137, 255, 7].length).2.2.buf =
        joinWith (',' :: '\n' :: ({ specFormat with DATA_PER_LINE := 2 } : Format).DATA_INDENT)
          ((groupLines ({ specFormat with DATA_PER_LINE := 2 } : Format).DATA_PER_LINE
            ([0, 10, 137, 255, 7].map (fmtByte defaultConfig))).map (joinWith [',', ' '])) ∧
      (groupLines ({ specFormat with DATA_PER_LINE := 2 } : Format).DATA_PER_LINE
          ([0, 10, 137, 255, 7].map (fmtByte defaultConfig))).flatten =
        [0, 10, 137, 255, 7].map (fmtByte defaultConfig) ∧
      (∀ line ∈ groupLines ({ specFormat with DATA_PER_LINE := 2 } : Format).DATA_PER_LINE
          ([0, 10, 137, 255, 7].map (fmtByte defaultConfig)),
        1 ≤ line.length ∧
          line.length ≤ ({ specFormat with DATA_PER_LINE := 2 } : Format).DATA_PER_LINE) ∧
      (∀ line ∈ (groupLines ({ specFormat with DATA_PER_LINE := 2 } : Format).DATA_PER_LINE
          ([0, 10, 137, 255, 7].map (fmtByte defaultConfig))).dropLast,
        line.length = ({ specFormat with DATA_PER_LINE := 2 } : Format).DATA_PER_LINE)) :=
  ⟨by decide, by decide, by decide, by decide, by decide, rfl, by decide,
   (writeDataNumerical_layout { specFormat with DATA_PER_LINE := 2 } defaultConfig
     [0, 10, 137, 255, 7] (by decide) (by decide)).2.2.2 rfl (by decide)⟩

/-! ## Facts about a short read -/

theorem false_of_branches (c1 c2 : Prop) [Decidable c1] [Decidable c2]
    (a b r : Bool × List Nat × Sink) (ha : a.1 = false) (hb : b.1 = false)
    (hr : r.1 = false) : (if c1 then a else if c2 then b else r).1 = false := by
  split
  · exact ha
  · split
    · exact hb
    · exact hr

/-- With fewer bytes than iterations the loop of `writeDataNumerical` returns false, whatever
the stream does. -/
theorem numericalLoop_short (fmt : Format) (config : Config) :
    ∀ (k : Nat) (first : Bool) (n : Nat) (input : List Nat) (output : Sink),
      input.length < k → (numericalLoop fmt config k first n input output).1 = false
  | 0, _, _, _, _, h => absurd h (Nat.not_lt_zero _)
  | _ + 1, _, _, [], _, _ => rfl
  | k + 1, first, n, byte :: input, output, h => by
    have hlen : input.length < k := by simpa using h
    simp only [numericalLoop]
    exact false_of_branches _ _ _ _ _ rfl rfl (numericalLoop_short fmt config k _ _ input _ hlen)

/-- With fewer bytes than iterations the loop of `writeDataText` returns false, whatever the
stream does. -/
theorem textLoop_short (fmt : Format) (config : Config) :
    ∀ (k : Nat) (newLine : Bool) (input : List Nat) (output : Sink),
      input.length < k → (textLoop fmt config k newLine input output).1 = false
  | 0, _, _, _, h => absurd h (Nat.not_lt_zero _)
  | _ + 1, _, [], _, _ => rfl
  | k + 1, newLine, byte :: input, output, h => by
    have hlen : input.length < k := by simpa using h
    simp only [textLoop]
    refine false_of_branches _ _ _ _ _ rfl ?_ (textLoop_short fmt config k _ input _ hlen)
    split
    · rfl
    · exact textLoop_short fmt config k _ input _ hlen

theorem writeData_short (fmt : Format) (config : Config) (input : List Nat) (length : Nat)
    (h : input.length < length) (output : Sink) :
    (writeData fmt config input output length).1 = false := by
  unfold writeData
  split
  · exact textLoop_short fmt config length false input output h
  · exact numericalLoop_short fmt config length true 0 input output h

/-- On a stream that takes every write, with fewer bytes than iterations, the loop of
`writeDataNumerical` writes the text of the bytes there are and returns false. -/
theorem numericalLoop_short_unlimited (fmt : Format) (config : Config) :
    ∀ (k : Nat) (first : Bool) (n : Nat) (input : List Nat) (b : List Char),
      input.length < k →
      numericalLoop fmt config k first n input { buf := b, room := none, err := false } =
        (false, [], { buf := b ++ numericalText fmt config first n input, room := none,
                      err := false })
  | 0, _, _, _, _, h => absurd h (Nat.not_lt_zero _)
  | _ + 1, _, _, [], _, _ => by simp [numericalLoop, numericalText]
  | k + 1, first, n, byte :: input, b, h => by
    have hlen : input.length < k := by simpa using h
    have ih := fun f m c => numericalLoop_short_unlimited fmt config k f m input c hlen
    cases first
    · by_cases hc : (!config.singleLine && decide (n ≥ fmt.DATA_PER_LINE)) = true
      · simp [numericalLoop, numericalText, hc, ih]
      · simp [numericalLoop, numericalText, hc, ih]
    · simp [numericalLoop, numericalText, ih]

/-- On a stream that takes every write, with fewer bytes than iterations, the loop of
`writeDataText` writes the text of the bytes there are and returns false. -/
theorem textLoop_short_unlimited (fmt : Format) (config : Config) :
    ∀ (k : Nat) (newLine : Bool) (input : List Nat) (b : List Char),
      input.length < k →
      textLoop fmt config k newLine input { buf := b, room := none, err := false } =
        (false, [], { buf := b ++ textText fmt config newLine input, room := none,
                      err := false })
  | 0, _, _, _, h => absurd h (Nat.not_lt_zero _)
  | _ + 1, _, [], _, _ => by simp [textLoop, textText]
  | k + 1, newLine, byte :: input, b, h => by
    have hlen : input.length < k := by simpa using h
    have ih := fun nl c => textLoop_short_unlimited fmt config k nl input c hlen
    cases hs : config.singleLine <;> by_cases hb : byte = 10 ∨ byte = 13 <;> cases newLine <;>
      simp [textLoop, textText, hs, hb, ih]

theorem writeData_short_unlimited (fmt : Format) (config : Config) (input : List Nat)
    (length : Nat) (h : input.length < length) (b : List Char) :
    writeData fmt config input { buf := b, room := none, err := false } length =
      (false, [], { buf := b ++ dataText fmt config input, room := none, err := false }) := by
  unfold writeData dataText
  split
  · exact textLoop_short_unlimited fmt config length false input b h
  · exact numericalLoop_short_unlimited fmt config length true 0 input b h

/-- The file name comments either stop `process` with the status 5 or leave the input and
the presence of the streams as they are. -/
theorem writeNameComments_cases (fmt : Format) (name : List Char) (outputCXX headerCXX : Bool)
    (s : Streams) :
    (∃ e, writeNameComments fmt name outputCXX headerCXX s = .error e ∧ e.retval = 5 ∧
      e.fault = false) ∨
    (∃ s1, writeNameComments fmt name outputCXX headerCXX s = .ok s1 ∧ s1.input = s.input ∧
      s1.output.isSome = s.output.isSome ∧ s1.header.isSome = s.header.isSome) := by
  obtain ⟨inp, o, h⟩ := s
  cases o <;> cases h <;> simp only [writeNameComments, Streams.leave] <;>
    (try split_ifs) <;> (try simp only []) <;> (try split_ifs) <;>
    first
    | exact Or.inl ⟨_, rfl, rfl, rfl⟩
    | exact Or.inr ⟨_, rfl, rfl, rfl, rfl⟩

/-- The size definition either stops `process` with the status 5 or leaves the input and the
presence of the streams as they are. -/
theorem writeSize_cases (fmt : Format) (config : Config) (implementation : Bool)
    (symbol symbolMacro : List Char) (length : Nat) (s : Streams) :
    (∃ e, writeSize fmt config implementation symbol symbolMacro length s = .error e ∧
      e.retval = 5 ∧ e.fault = false) ∨
    (∃ s1, writeSize fmt config implementation symbol symbolMacro length s = .ok s1 ∧
      s1.input = s.input ∧ s1.output.isSome = s.output.isSome ∧
      s1.header.isSome = s.header.isSome) := by
  obtain ⟨inp, o, h⟩ := s
  cases o <;> cases h <;> simp only [writeSize, Streams.leave] <;>
    (try split_ifs) <;> (try simp only []) <;> (try split_ifs) <;>
    first
    | exact Or.inl ⟨_, rfl, rfl, rfl⟩
    | exact Or.inr ⟨_, rfl, rfl, rfl, rfl⟩

/-- On a short input the content on the output stream stops `process` with the status 5;
without an output stream nothing happens. -/
theorem writeContentOutput_short (fmt : Format) (config : Config)
    (symbol symbolMacro : List Char) (length : Nat) (s : Streams)
    (hshort : s.input.length < length) :
    (s.output = none ∧
      writeContentOutput fmt config symbol symbolMacro length s = .ok s) ∨
    (∃ e, writeContentOutput fmt config symbol symbolMacro length s = .error e ∧
      e.retval = 5 ∧ e.fault = false) := by
  have hw := writeData_short fmt config s.input length hshort
  obtain ⟨inp, o, h⟩ := s
  cases o with
  | none => exact Or.inl ⟨rfl, rfl⟩
  | some o =>
    right
    simp only [writeContentOutput, Streams.leave, hw, Bool.not_false, reduceIte]
    split_ifs <;> exact ⟨_, rfl, rfl, rfl⟩

/-- On a short input the content on a header stream that holds the implementation stops
`process` with the status 5. -/
theorem writeContentHeader_short (fmt : Format) (config : Config)
    (symbol symbolMacro : List Char) (length : Nat) (s : Streams)
    (hshort : s.input.length < length) (hh : s.header.isSome = true) :
    ∃ e, writeContentHeader fmt config true symbol symbolMacro length s = .error e ∧
      e.retval = 5 ∧ e.fault = false := by
  have hw := writeData_short fmt config s.input length hshort
  obtain ⟨inp, o, h⟩ := s
  cases h with
  | none => simp at hh
  | some h =>
    simp only [writeContentHeader, Streams.leave, hw, Bool.not_false, Bool.not_true,
      Bool.false_eq_true, reduceIte]
    split_ifs <;> exact ⟨_, rfl, rfl, rfl⟩

/-- With a stream present and fewer bytes in the file than its measured length, `process`
returns 5, whatever the streams do. -/
theorem process_short_retval (fmt : Format) (fmax : Nat) (config : Config) (f : InputFile)
    (name : List Char) (output header : Option Sink) (outputCXX headerCXX : Bool)
    (hsink : output.isSome = true ∨ header.isSome = true)
    (hshort : f.bytes.length < f.length) :
    (process fmt fmax config (some f) name output header outputCXX headerCXX).retval = 5 ∧
    (process fmt fmax config (some f) name output header outputCXX headerCXX).fault = false := by
  simp only [process]
  rcases writeNameComments_cases fmt name outputCXX headerCXX
      { input := [], output := output, header := header } with
    ⟨e, he, h5, hf⟩ | ⟨s1, hs1, _, ho1, hh1⟩
  · rw [he]; exact ⟨h5, hf⟩
  · rw [hs1]
    simp only []
    rcases writeSize_cases fmt config (output.isNone != header.isNone)
        (setupSymbol fmax config name) (setupSymbolMacro fmax name) f.length
        { s1 with input := f.bytes } with
      ⟨e, he, h5, hf⟩ | ⟨s3, hs3, hi3, ho3, hh3⟩
    · rw [he]; exact ⟨h5, hf⟩
    · rw [hs3]
      simp only []
      have hshort3 : s3.input.length < f.length := by rw [hi3]; exact hshort
      rcases writeContentOutput_short fmt config (setupSymbol fmax config name)
          (setupSymbolMacro fmax name) f.length s3 hshort3 with
        ⟨hnone, hok⟩ | ⟨e, he, h5, hf⟩
      · rw [hok]
        simp only []
        have hout : output = none := by
          have : output.isSome = false := by
            rw [← ho1]
            simp only [] at ho3
            rw [← ho3, hnone]
            rfl
          cases output with
          | none => rfl
          | some o => simp at this
        have hhead : header.isSome = true := by
          rcases hsink with h | h
          · rw [hout] at h; simp at h
          · exact h
        have himpl : (output.isNone != header.isNone) = true := by
          rw [hout]
          cases header with
          | none => simp at hhead
          | some h => rfl
        rw [himpl]
        have hh : s3.header.isSome = true := by
          simp only [] at hh3
          rw [hh3, hh1]
          exact hhead
        obtain ⟨e, he, h5, hf⟩ := writeContentHeader_short fmt config
          (setupSymbol fmax config name) (setupSymbolMacro fmax name) f.length s3 hshort3 hh
        rw [he]; exact ⟨h5, hf⟩
      · rw [he]; exact ⟨h5, hf⟩

/-! ## A short read: properties -/

/-- With the output stream present, both streams taking every write, and fewer bytes in the
file than its measured length, `process` stops after the bytes there are: the output stream
ends with them, without the closing of the literal, and the header stream holds the comment
and the size only. -/
theorem process_short_output (fmt : Format) (fmax : Nat) (config : Config) (name : List Char)
    (n : Nat) (bytes : List Nat) (hshort : bytes.length < n) (ob : List Char)
    (hdr : Option (List Char)) (outputCXX headerCXX : Bool) :
    process fmt fmax config (some { length := n, bytes := bytes }) name
        (some { buf := ob, room := none, err := false })
        (hdr.map (fun hb => { buf := hb, room := none, err := false })) outputCXX headerCXX =
      { retval := 5,
        output := some
          { buf := ob ++ nameComment fmt name outputCXX ++
              (if config.createMacro then []
               else "const ".toList ++ fmt.SIZE_TYPE ++ " ".toList ++
                 sizeName fmt config (setupSymbol fmax config name) ++ " = ".toList ++
                 fmtLength n ++ ";\n".toList) ++
              dataDeclarator fmt config (setupSymbol fmax config name)
                (setupSymbolMacro fmax name) n ++ " =".toList ++
              openLiteral fmt config ++ dataText fmt config bytes,
            room := none, err := false },
        header := hdr.map (fun hb =>
          { buf := hb ++ nameComment fmt name headerCXX ++
              (if config.createMacro then
                 "#define ".toList ++ setupSymbolMacro fmax name ++ "_".toList ++
                   fmt.SIZE_SUFFIX_MACRO ++ " ".toList ++ fmtLength n ++ "\n".toList
               else "extern const ".toList ++ fmt.SIZE_TYPE ++ " ".toList ++
                 sizeName fmt config (setupSymbol fmax config name) ++ ";\n".toList),
            room := none, err := false }),
        fault := false } := by
  have hw := writeData_short_unlimited fmt config bytes n hshort
  cases hdr <;> cases hm : config.createMacro <;>
    simp [process, writeNameComments, writeSize, writeContentOutput, writeContentHeader,
      Streams.leave, hw, hm]

/-- With the header stream alone, taking every write, and fewer bytes in the file than its
measured length, `process` stops after the bytes there are, without the closing of the
literal. -/
theorem process_short_header (fmt : Format) (fmax : Nat) (config : Config) (name : List Char)
    (n : Nat) (bytes : List Nat) (hshort : bytes.length < n) (hb : List Char)
    (outputCXX headerCXX : Bool) :
    process fmt fmax config (some { length := n, bytes := bytes }) name none
        (some { buf := hb, room := none, err := false }) outputCXX headerCXX =
      { retval := 5,
        output := none,
        header := some
          { buf := hb ++ nameComment fmt name headerCXX ++
              (if config.createMacro then
                 "#define ".toList ++ setupSymbolMacro fmax name ++ "_".toList ++
                   fmt.SIZE_SUFFIX_MACRO ++ " ".toList ++ fmtLength n ++ "\n".toList
               else "const ".toList ++ fmt.SIZE_TYPE ++ " ".toList ++
                 sizeName fmt config (setupSymbol fmax config name) ++ " = ".toList ++
                 fmtLength n ++ ";\n".toList) ++
              dataDeclarator fmt config (setupSymbol fmax config name)
                (setupSymbolMacro fmax name) n ++
              openLiteral fmt config ++ dataText fmt config bytes,
            room := none, err := false },
        fault := false } := by
  have hw := writeData_short_unlimited fmt config bytes n hshort
  cases hm : config.createMacro <;>
    simp [process, writeNameComments, writeSize, writeContentOutput, writeContentHeader,
      Streams.leave, hw, hm]

/-- C15: for every length `n` below `2 ^ 31`: when the input holds fewer than `n` bytes,
`writeDataNumerical` and `writeDataText` return false whatever the stream does, `process`
(with a stream present) returns 5, and on streams that take every write the text written
ends with the text of the bytes there are, without the closing of the literal; when the input
holds at least `n` bytes and the stream takes every write, the two functions return true,
leave the bytes after the first `n` unread and write the text of exactly the first `n` bytes,
each once and in order. The text of bytes is, in the text form, their escapes with the line
splits and, in the numerical form, their items joined by a comma and a space (`singleLine`
set) or set in lines joined by a comma, a newline and the indentation (`singleLine` clear, at
least one item a line). -/
theorem short_read_is_failure (fmt : Format) (fmax : Nat) (config : Config)
    (input : List Nat) (n : Nat) (hn : n < 2 ^ 31) :
    (input.length < n →
      (∀ output : Sink, (writeDataNumerical fmt config input output n).1 = false ∧
        (writeDataText fmt config input output n).1 = false) ∧
      (∀ (name : List Char) (output header : Option Sink) (outputCXX headerCXX : Bool),
        output.isSome = true ∨ header.isSome = true →
        (process fmt fmax config (some { length := n, bytes := input }) name output header
          outputCXX headerCXX).retval = 5) ∧
      (∀ b : List Char,
        writeDataNumerical fmt config input { buf := b, room := none, err := false } n =
          (false, [],
           { buf := b ++ numericalText fmt config true 0 input, room := none, err := false }) ∧
        writeDataText fmt config input { buf := b, room := none, err := false } n =
          (false, [],
           { buf := b ++ (input.map (fun x => escapeByte x ++
               (if config.singleLine = false ∧ (x = 10 ∨ x = 13) then
                  '\x22' :: '\n' :: (fmt.DATA_INDENT ++ ['\x22'])
                else []))).flatten,
             room := none, err := false })) ∧
      (∀ (name ob : List Char) (hdr : Option (List Char)) (outputCXX headerCXX : Bool),
        (process fmt fmax config (some { length := n, bytes := input }) name
          (some { buf := ob, room := none, err := false })
          (hdr.map (fun hb => { buf := hb, room := none, err := false }))
          outputCXX headerCXX).output =
        some
          { buf := ob ++ nameComment fmt name outputCXX ++
              (if config.createMacro then []
               else "const ".toList ++ fmt.SIZE_TYPE ++ " ".toList ++
                 sizeName fmt config (setupSymbol fmax config name) ++ " = ".toList ++
                 (Nat.repr n).toList ++ ";\n".toList) ++
              dataDeclarator fmt config (setupSymbol fmax config name)
                (setupSymbolMacro fmax name) n ++ " =".toList ++
              openLiteral fmt config ++
              (if config.text then
                 (input.map (fun x => escapeByte x ++
                   (if config.singleLine = false ∧ (x = 10 ∨ x = 13) then
                      '\x22' :: '\n' :: (fmt.DATA_INDENT ++ ['\x22'])
                    else []))).flatten
               else numericalText fmt config true 0 input),
            room := none, err := false })) ∧
    (n ≤ input.length → ∀ b : List Char,
      writeDataNumerical fmt config input { buf := b, room := none, err := false } n =
        (true, input.drop n,
         { buf := b ++ numericalText fmt config true 0 (input.take n), room := none,
           err := false }) ∧
      writeDataText fmt config input { buf := b, room := none, err := false } n =
        (true, input.drop n,
         { buf := b ++ ((input.take n).map (fun x => escapeByte x ++
             (if config.singleLine = false ∧ (x = 10 ∨ x = 13) then
                '\x22' :: '\n' :: (fmt.DATA_INDENT ++ ['\x22'])
              else []))).flatten,
           room := none, err := false })) ∧
    (config.singleLine = true → ∀ bs : List Nat,
      numericalText fmt config true 0 bs = joinWith [',', ' '] (bs.map (fmtByte config))) ∧
    (config.singleLine = false → 1 ≤ fmt.DATA_PER_LINE → ∀ bs : List Nat,
      numericalText fmt config true 0 bs =
        joinWith (',' :: '\n' :: fmt.DATA_INDENT)
          ((groupLines fmt.DATA_PER_LINE (bs.map (fmtByte config))).map
            (joinWith [',', ' ']))) := by
  have hc : config.singleLine = true ∨ false = false := Or.inr rfl
  refine ⟨?_, ?_, fun hs bs => numericalText_join_single fmt config hs bs,
    fun hs hN bs => numericalText_join_lines fmt config hs hN bs⟩
  · intro hshort
    refine ⟨?_, ?_, ?_, ?_⟩
    · intro output
      exact ⟨numericalLoop_short fmt config n true 0 input output hshort,
        textLoop_short fmt config n false input output hshort⟩
    · intro name output header outputCXX headerCXX hsink
      exact (process_short_retval fmt fmax config { length := n, bytes := input } name output
        header outputCXX headerCXX hsink hshort).1
    · intro b
      have ht := textLoop_short_unlimited fmt config n false input b hshort
      rw [textText_eq_flatten fmt config input false hc] at ht
      simp only [lineSplit] at ht
      exact ⟨numericalLoop_short_unlimited fmt config n true 0 input b hshort, ht⟩
    · intro name ob hdr outputCXX headerCXX
      rw [process_short_output fmt fmax config name n input hshort ob hdr,
        fmtLength_eq_repr n hn]
      simp only [dataText, textText_eq_flatten fmt config input false hc, lineSplit]
  · intro hlen b
    have hl : (input.take n).length = n := by rw [List.length_take]; omega
    have hsplit : input = input.take n ++ input.drop n := (List.take_append_drop n input).symm
    have hn1 := numericalLoop_unlimited fmt config (input.take n) (input.drop n) true 0 b
    have ht1 := textLoop_unlimited fmt config (input.take n) (input.drop n) false b
    rw [← hsplit, hl] at hn1 ht1
    rw [textText_eq_flatten fmt config (input.take n) false hc] at ht1
    simp only [writeDataNumerical, writeDataText, hn1, ht1, lineSplit, true_and]

/-- C15 at two bytes with the measured length 3 (short read) and with the length 1. -/
theorem short_read_is_failure_witness :
    3 < 2 ^ 31 ∧ [65, 66].length < 3 ∧ 1 < 2 ^ 31 ∧ 1 ≤ [65, 66].length ∧
    (process specFormat 4096 defaultConfig (some { length := 3, bytes := [65, 66] })
      "a.bin".toList (some { buf := [], room := none, err := false }) none false false) =
      { retval := 5,
        output := some
          { buf := ("/* a.bin */\nconst unsigned int a_bin_size = 3;\n" ++
              "const unsigned char a_bin[3] =\n\x7b\n    0x41, 0x42").toList,
            room := none, err := false },
        header := none, fault := false } ∧
    numericalText specFormat defaultConfig true 0 ([65, 66].take 1) = "0x41".toList ∧
    (∀ output : Sink, (writeDataNumerical specFormat defaultConfig [65, 66] output 3).1 = false ∧
      (writeDataText specFormat defaultConfig [65, 66] output 3).1 = false) ∧
    (∀ b : List Char,
      writeDataNumerical specFormat defaultConfig [65, 66]
          { buf := b, room := none, err := false } 1 =
        (true, [65, 66].drop 1,
         { buf := b ++ numericalText specFormat defaultConfig true 0 ([65, 66].take 1),
           room := none, err := false }) ∧
      writeDataText specFormat defaultConfig [65, 66]
          { buf := b, room := none, err := false } 1 =
        (true, [65, 66].drop 1,
         { buf := b ++ (([65, 66].take 1).map (fun x => escapeByte x ++
             (if defaultConfig.singleLine = false ∧ (x = 10 ∨ x = 13) then
                '\x22' :: '\n' :: (specFormat.DATA_INDENT ++ ['\x22'])
              else []))).flatten,
           room := none, err := false })) :=
  ⟨by decide, by decide, by decide, by decide, by decide, by decide,
   ((short_read_is_failure specFormat 4096 defaultConfig [65, 66] 3 (by decide)).1
     (by decide)).1,
   (short_read_is_failure specFormat 4096 defaultConfig [65, 66] 1 (by decide)).2.1
     (by decide)⟩

/-! ## The size constant, the include guard and the loop over the files -/

/-- C14: with `createMacro` clear, both streams present (taking every write) and the input
read in full (its length below `2 ^ 31`), for both conventions the header stream receives
`extern const <SizeType> <symbol><suffix>;` without initializer and the output stream
receives `const <SizeType> <symbol><suffix> = <length>;`, where the length is the decimal
byte count and the suffix is `_` and `SIZE_SUFFIX`, or `SIZE_SUFFIX_CAMEL` in camel case. -/
theorem process_size_constant (fmt : Format) (fmax : Nat) (config : Config) (name : List Char)
    (bs : List Nat) (ob hb : List Char) (outputCXX headerCXX : Bool)
    (hm : config.createMacro = false) (hlen : bs.length < 2 ^ 31) :
    process fmt fmax config (some { length := bs.length, bytes := bs }) name
        (some { buf := ob, room := none, err := false })
        (some { buf := hb, room := none, err := false }) outputCXX headerCXX =
      { retval := 0,
        output := some
          { buf := ob ++ nameComment fmt name outputCXX ++
              ("const ".toList ++ fmt.SIZE_TYPE ++ " ".toList ++
                (if config.camelCase then setupSymbolCamel fmax name ++ fmt.SIZE_SUFFIX_CAMEL
                 else setupSymbolSnake fmax name ++ "_".toList ++ fmt.SIZE_SUFFIX) ++
                " = ".toList ++ (Nat.repr bs.length).toList ++ ";\n".toList) ++
              dataDeclarator fmt config (setupSymbol fmax config name)
                (setupSymbolMacro fmax name) bs.length ++ " =".toList ++
              openLiteral fmt config ++ written fmt config bs ++ closeLiteral config,
            room := none, err := false },
        header := some
          { buf := hb ++ nameComment fmt name headerCXX ++
              ("extern const ".toList ++ fmt.SIZE_TYPE ++ " ".toList ++
                (if config.camelCase then setupSymbolCamel fmax name ++ fmt.SIZE_SUFFIX_CAMEL
                 else setupSymbolSnake fmax name ++ "_".toList ++ fmt.SIZE_SUFFIX) ++
                ";\n".toList) ++
              "extern ".toList ++
              dataDeclarator fmt config (setupSymbol fmax config name)
                (setupSymbolMacro fmax name) bs.length ++ ";\n\n".toList,
            room := none, err := false },
        fault := false } := by
  have hfl := fmtLength_eq_repr bs.length hlen
  have hsize : sizeName fmt config (setupSymbol fmax config name) =
      (if config.camelCase then setupSymbolCamel fmax name ++ fmt.SIZE_SUFFIX_CAMEL
       else setupSymbolSnake fmax name ++ "_".toList ++ fmt.SIZE_SUFFIX) := by
    cases hc : config.camelCase <;> simp [sizeName, setupSymbol, hc]
  rw [← hsize, ← hfl]
  simp [process, writeNameComments, writeSize, writeContentOutput, writeContentHeader,
    Streams.leave, writeData_written, hm]

/-- C14 at the file `logo.png` of three bytes, in snake case. -/
theorem process_size_constant_witness :
    defaultConfig.createMacro = false ∧ [0x89, 0x50, 0x4e].length < 2 ^ 31 ∧
    process specFormat 4096 defaultConfig
        (some { length := [0x89, 0x50, 0x4e].length, bytes := [0x89, 0x50, 0x4e] })
        "logo.png".toList (some { buf := [], room := none, err := false })
        (some { buf := [], room := none, err := false }) false false =
      { retval := 0,
        output := some
          { buf := [] ++ nameComment specFormat "logo.png".toList false ++
              ("const ".toList ++ specFormat.SIZE_TYPE ++ " ".toList ++
                (if defaultConfig.camelCase then
                   setupSymbolCamel 4096 "logo.png".toList ++ specFormat.SIZE_SUFFIX_CAMEL
                 else setupSymbolSnake 4096 "logo.png".toList ++ "_".toList ++
                   specFormat.SIZE_SUFFIX) ++
                " = ".toList ++ (Nat.repr [0x89, 0x50, 0x4e].length).toList ++ ";\n".toList) ++
              dataDeclarator specFormat defaultConfig
                (setupSymbol 4096 defaultConfig "logo.png".toList)
                (setupSymbolMacro 4096 "logo.png".toList) [0x89, 0x50, 0x4e].length ++
              " =".toList ++
              openLiteral specFormat defaultConfig ++
              written specFormat defaultConfig [0x89, 0x50, 0x4e] ++ closeLiteral defaultConfig,
            room := none, err := false },
        header := some
          { buf := [] ++ nameComment specFormat "logo.png".toList false ++
              ("extern const ".toList ++ specFormat.SIZE_TYPE ++ " ".toList ++
                (if defaultConfig.camelCase then
                   setupSymbolCamel 4096 "logo.png".toList ++ specFormat.SIZE_SUFFIX_CAMEL
                 else setupSymbolSnake 4096 "logo.png".toList ++ "_".toList ++
                   specFormat.SIZE_SUFFIX) ++
                ";\n".toList) ++
              "extern ".toList ++
              dataDeclarator specFormat defaultConfig
                (setupSymbol 4096 defaultConfig "logo.png".toList)
                (setupSymbolMacro 4096 "logo.png".toList) [0x89, 0x50, 0x4e].length ++
              ";\n\n".toList,
            room := none, err := false },
        fault := false } :=
  ⟨rfl, by decide,
   process_size_constant specFormat 4096 defaultConfig "logo.png".toList [0x89, 0x50, 0x4e]
     [] [] false false rfl (by decide)⟩

/-- The size constant in camel case, with both streams, at the file `logo.png`. -/
theorem process_size_constant_camel_example :
    process specFormat 4096 { defaultConfig with camelCase := true }
        (some { length := 3, bytes := [0x89, 0x50, 0x4e] })
        "logo.png".toList (some { buf := [], room := none, err := false })
        (some { buf := [], room := none, err := false }) false false =
      { retval := 0,
        output := some
          { buf := ("/* logo.png */\n" ++
              "const unsigned int logoPngSize = 3;\n" ++
              "const unsigned char logoPng[3] =\n\x7b\n    0x89, 0x50, 0x4e\n\x7d;\n\n").toList,
            room := none, err := false },
        header := some
          { buf := ("/* logo.png */\n" ++
              "extern const unsigned int logoPngSize;\n" ++
              "extern const unsigned char logoPng[3];\n\n").toList,
            room := none, err := false },
        fault := false } := by
  decide

/-- The loop of `getGuard` stores the mapped characters of the name until the buffer is
full. -/
theorem guardLoop_eq_take (fmax : Nat) : ∀ (name : List Char) (j : Nat),
    guardLoop fmax name j = (name.map guardChar).take (fmax - j)
  | [], _ => by simp [guardLoop]
  | c :: rest, j => by
    by_cases h : j ≥ fmax
    · have h0 : fmax - j = 0 := by omega
      simp [guardLoop, h, h0]
    · have hs : fmax - j = (fmax - (j + 1)) + 1 := by omega
      simp only [guardLoop, h, if_false, guardLoop_eq_take fmax rest (j + 1), List.map_cons, hs,
        List.take_succ_cons, guardChar]

/-- For a base name of `FILENAME_MAX` characters or more, `getGuard` stores `FILENAME_MAX`
characters: the array is full and holds no terminator. -/
theorem getGuard_long (fmax : Nat) (name : List Char) (h : fmax ≤ name.length) :
    (getGuard fmax name).length = fmax := by
  rw [getGuard, guardLoop_eq_take, Nat.sub_zero, List.length_take, List.length_map]
  omega

/-- The guard of `foo.h`, and a full array on a small scale. -/
theorem getGuard_examples :
    getGuard 4096 "foo.h".toList = "FOO_H".toList ∧
    getGuard 4096 "my-header.v2.hpp".toList = "MY-HEADER_V2_HPP".toList ∧
    getGuard 4 "abcdef".toList = "ABCD".toList := by
  decide

/-- The loop over the files, from any value of `retval`. -/
theorem processFiles_eq (fmt : Format) (fmax : Nat) (config : Config)
    (outputCXX headerCXX : Bool) : ∀ (files : List FileArg) (retval : Nat)
    (output header : Option Sink),
    (∀ r ∈ callOutcomes fmt fmax config outputCXX headerCXX files output header,
      r.fault = false) →
    processFiles fmt fmax config outputCXX headerCXX files retval output header =
      { retval := if retval ≠ 0 then retval
          else firstNonZero
            ((callOutcomes fmt fmax config outputCXX headerCXX files output header).map
              (fun r => r.retval)),
        output := (((callOutcomes fmt fmax config outputCXX headerCXX files output
          header).getLast?).map (fun r => r.output)).getD output,
        header := (((callOutcomes fmt fmax config outputCXX headerCXX files output
          header).getLast?).map (fun r => r.header)).getD header,
        fault := false }
  | [], retval, output, header, _ => by
    by_cases h : retval = 0 <;> simp [processFiles, callOutcomes, firstNonZero, h]
  | a :: rest, retval, output, header, hnf => by
    have hr : (process fmt fmax config a.file a.name output header outputCXX headerCXX).fault =
        false := hnf _ (by simp [callOutcomes])
    have hrest : ∀ r ∈ callOutcomes fmt fmax config outputCXX headerCXX rest
        (process fmt fmax config a.file a.name output header outputCXX headerCXX).output
        (process fmt fmax config a.file a.name output header outputCXX headerCXX).header,
        r.fault = false := fun r hm => hnf r (by simp [callOutcomes, hm])
    have ih := processFiles_eq fmt fmax config outputCXX headerCXX rest
      (if (process fmt fmax config a.file a.name output header outputCXX headerCXX).retval ≠ 0
          ∧ retval = 0 then
        (process fmt fmax config a.file a.name output header outputCXX headerCXX).retval
       else retval)
      _ _ hrest
    simp only [processFiles, hr, Bool.false_eq_true, if_false, ih, callOutcomes]
    generalize process fmt fmax config a.file a.name output header outputCXX headerCXX = p
    cases hl : callOutcomes fmt fmax config outputCXX headerCXX rest p.output p.header with
    | nil =>
      by_cases h0 : retval = 0 <;> by_cases hp : p.retval = 0 <;>
        simp [firstNonZero, h0, hp, List.getLast?]
    | cons q qs =>
      obtain ⟨z, hz⟩ : ∃ z, (q :: qs).getLast? = some z := by
        cases hq : (q :: qs).getLast? with
        | none => simp at hq
        | some z => exact ⟨z, rfl⟩
      by_cases h0 : retval = 0 <;> by_cases hp : p.retval = 0 <;>
        simp [firstNonZero, h0, hp, List.getLast?_cons_cons, hz]

/-! ## The loop over the files: properties -/

theorem firstNonZero_eq_zero_iff : ∀ (l : List Nat), firstNonZero l = 0 ↔ ∀ s ∈ l, s = 0
  | [] => by simp [firstNonZero]
  | s :: ss => by
    by_cases h : s = 0
    · simp [firstNonZero, h, firstNonZero_eq_zero_iff ss]
    · simp [firstNonZero, h]

theorem callOutcomes_length (fmt : Format) (fmax : Nat) (config : Config)
    (outputCXX headerCXX : Bool) : ∀ (files : List FileArg) (output header : Option Sink),
    (callOutcomes fmt fmax config outputCXX headerCXX files output header).length =
      files.length
  | [], _, _ => rfl
  | a :: rest, output, header => by
    simp [callOutcomes, callOutcomes_length fmt fmax config outputCXX headerCXX rest]

/-- The loop over the files from `retval` 0, for a list of files on which no call of `process`
writes through a null stream: `process` is called once for every file, in order, each call
on the streams the call before left, whatever the earlier statuses; the status of the loop
is the first status of these calls that is not zero, or zero (which it is exactly when every
call returned zero), and the streams are those the last call left. -/
theorem main_status_aggregation (fmt : Format) (fmax : Nat) (config : Config)
    (outputCXX headerCXX : Bool) (files : List FileArg) (output header : Option Sink)
    (hnf : ∀ r ∈ callOutcomes fmt fmax config outputCXX headerCXX files output header,
      r.fault = false) :
    (callOutcomes fmt fmax config outputCXX headerCXX files output header).length =
      files.length ∧
    processFiles fmt fmax config outputCXX headerCXX files 0 output header =
      { retval := firstNonZero
          ((callOutcomes fmt fmax config outputCXX headerCXX files output header).map
            (fun r => r.retval)),
        output := (((callOutcomes fmt fmax config outputCXX headerCXX files output
          header).getLast?).map (fun r => r.output)).getD output,
        header := (((callOutcomes fmt fmax config outputCXX headerCXX files output
          header).getLast?).map (fun r => r.header)).getD header,
        fault := false } ∧
    ((processFiles fmt fmax config outputCXX headerCXX files 0 output header).retval = 0 ↔
      ∀ r ∈ callOutcomes fmt fmax config outputCXX headerCXX files output header,
        r.retval = 0) := by
  have h := processFiles_eq fmt fmax config outputCXX headerCXX files 0 output header hnf
  simp only [ne_eq, not_true_eq_false, if_false] at h
  refine ⟨callOutcomes_length fmt fmax config outputCXX headerCXX files output header, h, ?_⟩
  rw [h]
  simp only [firstNonZero_eq_zero_iff, List.mem_map, forall_exists_index, and_imp,
    forall_apply_eq_imp_iff₂]

set_option maxRecDepth 100000 in
/-- The loop at four files on an output stream: a good file, one that cannot be opened
(status 4), one shorter than its measured length (status 5) and a good file; the loop
returns 4 and the last file is still written. -/
theorem main_status_aggregation_witness :
    (callOutcomes specFormat 4096 defaultConfig false false
      [{ name := "a".toList, file := some { length := 1, bytes := [65] } },
       { name := "b".toList, file := none },
       { name := "c".toList, file := some { length := 2, bytes := [66] } },
       { name := "d".toList, file := some { length := 1, bytes := [67] } }]
      (some { buf := [], room := none, err := false }) none).map (fun r => r.retval) =
      [0, 4, 5, 0] ∧
    (processFiles specFormat 4096 defaultConfig false false
      [{ name := "a".toList, file := some { length := 1, bytes := [65] } },
       { name := "b".toList, file := none },
       { name := "c".toList, file := some { length := 2, bytes := [66] } },
       { name := "d".toList, file := some { length := 1, bytes := [67] } }]
      0 (some { buf := [], room := none, err := false }) none).retval = 4 ∧
    (processFiles specFormat 4096 defaultConfig false false
      [{ name := "a".toList, file := some { length := 1, bytes := [65] } },
       { name := "b".toList, file := none },
       { name := "c".toList, file := some { length := 2, bytes := [66] } },
       { name := "d".toList, file := some { length := 1, bytes := [67] } }]
      0 (some { buf := [], room := none, err := false }) none).output =
      some
        { buf := ("/* a */\nconst unsigned int a_size = 1;\n" ++
            "const unsigned char a[1] =\n\x7b\n    0x41\n\x7d;\n\n" ++
            "/* b */\n" ++
            "/* c */\nconst unsigned int c_size = 2;\n" ++
            "const unsigned char c[2] =\n\x7b\n    0x42" ++
            "/* d */\nconst unsigned int d_size = 1;\n" ++
            "const unsigned char d[1] =\n\x7b\n    0x43\n\x7d;\n\n").toList,
          room := none, err := false } ∧
    (callOutcomes specFormat 4096 defaultConfig false false
      [{ name := "a".toList, file := some { length := 1, bytes := [65] } },
       { name := "b".toList, file := none },
       { name := "c".toList, file := some { length := 2, bytes := [66] } },
       { name := "d".toList, file := some { length := 1, bytes := [67] } }]
      (some { buf := [], room := none, err := false }) none).length =
      [({ name := "a".toList, file := some { length := 1, bytes := [65] } } : FileArg),
       { name := "b".toList, file := none },
       { name := "c".toList, file := some { length := 2, bytes := [66] } },
       { name := "d".toList, file := some { length := 1, bytes := [67] } }].length :=
  ⟨by decide, by decide, by decide,
   (main_status_aggregation specFormat 4096 defaultConfig false false
     [{ name := "a".toList, file := some { length := 1, bytes := [65] } },
      { name := "b".toList, file := none },
      { name := "c".toList, file := some { length := 2, bytes := [66] } },
      { name := "d".toList, file := some { length := 1, bytes := [67] } }]
     (some { buf := [], room := none, err := false }) none (by decide)).1⟩

set_option maxRecDepth 100000 in
/-- C20: the code with the header stream alone and the text form, at the files `a.txt`
(holding `abc`) and `b.txt` (holding `d`): the first call of `process` writes the closing of
the literal through the null `output` (line 432), so the loop does not reach `b.txt` and
returns no status; with the numerical form the same two files are processed in order and the
status is 0. -/
theorem main_header_only_text_stops :
    processFiles specFormat 4096 { defaultConfig with text := true } false false
        [{ name := "a.txt".toList, file := some { length := 3, bytes := [97, 98, 99] } },
         { name := "b.txt".toList, file := some { length := 1, bytes := [100] } }]
        0 none (some { buf := [], room := none, err := false }) =
      { retval := 0,
        output := none,
        header := some
          { buf := ("/* a.txt */\n" ++
              "const unsigned int a_txt_size = 3;\n" ++
              "const unsigned char a_txt[3]\n    \x22abc").toList,
            room := none, err := false },
        fault := true } ∧
    processFiles specFormat 4096 defaultConfig false false
        [{ name := "a.txt".toList, file := some { length := 3, bytes := [97, 98, 99] } },
         { name := "b.txt".toList, file := some { length := 1, bytes := [100] } }]
        0 none (some { buf := [], room := none, err := false }) =
      { retval := 0,
        output := none,
        header := some
          { buf := ("/* a.txt */\n" ++
              "const unsigned int a_txt_size = 3;\n" ++
              "const unsigned char a_txt[3]\n\x7b\n    0x61, 0x62, 0x63\n\x7d;\n\n" ++
              "/* b.txt */\n" ++
              "const unsigned int b_txt_size = 1;\n" ++
              "const unsigned char b_txt[1]\n\x7b\n    0x64\n\x7d;\n\n").toList,
            room := none, err := false },
        fault := false } := by
  decide

/-! ## The text form read back -/

theorem dropLeading_append : ∀ (p t : List Char), dropLeading p (p ++ t) = some t
  | [], _ => by simp [dropLeading]
  | a :: p, t => by simp [dropLeading, dropLeading_append p t]

set_option maxRecDepth 100000 in
theorem escapeByte_cases : ∀ b, b < 256 →
    (escapeByte b = ['\\', (escapeByte b).getD 1 ' '] ∧
      unescapeChar ((escapeByte b).getD 1 ' ') = some b) ∨
    (escapeByte b = [Char.ofNat b] ∧ Char.ofNat b ≠ '\\' ∧ Char.ofNat b ≠ '\x22' ∧
      (Char.ofNat b).toNat = b ∧ b ≠ 10 ∧ b ≠ 13) := by
  decide

/-- More fuel does not change what is read. -/
theorem decodeTextAux_succ (fmt : Format) : ∀ (fuel : Nat) (t : List Char) (bs : List Nat),
    decodeTextAux fmt fuel t = some bs → decodeTextAux fmt (fuel + 1) t = some bs
  | _, [], bs, h => by simpa [decodeTextAux] using h
  | 0, _ :: _, _, h => by simp [decodeTextAux] at h
  | fuel + 1, c :: cs, bs, h => by
    simp only [decodeTextAux] at h ⊢
    by_cases h1 : c = '\\'
    · simp only [h1, if_true] at h ⊢
      cases cs with
      | nil => simp at h
      | cons e rest =>
        simp only [] at h ⊢
        cases hu : unescapeChar e with
        | none => simp [hu] at h
        | some b =>
          cases hd : decodeTextAux fmt fuel rest with
          | none => simp [hu, hd] at h
          | some bs2 =>
            rw [decodeTextAux_succ fmt fuel rest bs2 hd]
            simpa [hu, hd] using h
    · simp only [h1, if_false] at h ⊢
      by_cases h2 : c = '\x22'
      · simp only [h2, if_true] at h ⊢
        cases hl : dropLeading ('\n' :: (fmt.DATA_INDENT ++ ['\x22'])) cs with
        | none => simp [hl] at h
        | some rest =>
          simp only [hl] at h ⊢
          exact decodeTextAux_succ fmt fuel rest bs h
      · simp only [h2, if_false] at h ⊢
        cases hd : decodeTextAux fmt fuel cs with
        | none => simp [hd] at h
        | some bs2 =>
          rw [decodeTextAux_succ fmt fuel cs bs2 hd]
          simpa [hd] using h

theorem decodeTextAux_add (fmt : Format) (fuel : Nat) (t : List Char) (bs : List Nat)
    (h : decodeTextAux fmt fuel t = some bs) : ∀ k, decodeTextAux fmt (fuel + k) t = some bs
  | 0 => h
  | k + 1 => decodeTextAux_succ fmt (fuel + k) t bs (decodeTextAux_add fmt fuel t bs h k)

/-- A segment break in front of a text is removed. -/
theorem decodeTextAux_split (fmt : Format) (fuel : Nat) (rest : List Char) (bs : List Nat)
    (h : decodeTextAux fmt fuel rest = some bs) :
    decodeTextAux fmt (fuel + 1) (lineSplit fmt ++ rest) = some bs := by
  have hq : ('\x22' : Char) ≠ '\\' := by decide
  show decodeTextAux fmt (fuel + 1)
    ('\x22' :: (('\n' :: (fmt.DATA_INDENT ++ ['\x22'])) ++ rest)) = some bs
  simp only [decodeTextAux, hq, if_false, if_true]
  rw [dropLeading_append]
  exact h

/-- One step of the reading: the text of one byte in front of a text that is read as `bs`
is read as the byte and `bs`. -/
theorem decodeTextAux_segment (fmt : Format) (config : Config) (b : Nat) (hb : b < 256)
    (rest : List Char) (bs : List Nat) (fuel : Nat)
    (hrest : decodeTextAux fmt fuel rest = some bs) :
    decodeTextAux fmt (fuel + 2)
      (escapeByte b ++
        ((if config.singleLine = false ∧ (b = 10 ∨ b = 13) then lineSplit fmt else []) ++
          rest)) =
      some (b :: bs) := by
  have htail : decodeTextAux fmt (fuel + 1)
      ((if config.singleLine = false ∧ (b = 10 ∨ b = 13) then lineSplit fmt else []) ++
        rest) = some bs := by
    split
    · exact decodeTextAux_split fmt fuel rest bs hrest
    · exact decodeTextAux_succ fmt fuel rest bs hrest
  rcases escapeByte_cases b hb with ⟨he, hu⟩ | ⟨he, h1, h2, h3, h4, h5⟩
  · rw [he]
    show decodeTextAux fmt (fuel + 1 + 1) ('\\' :: (escapeByte b).getD 1 ' ' ::
      ((if config.singleLine = false ∧ (b = 10 ∨ b = 13) then lineSplit fmt else []) ++
        rest)) = some (b :: bs)
    simp only [decodeTextAux, if_true, hu, htail]
  · have hno : ¬ (config.singleLine = false ∧ (b = 10 ∨ b = 13)) := by
      rintro ⟨_, h | h⟩
      · exact h4 h
      · exact h5 h
    rw [he, if_neg hno]
    show decodeTextAux fmt (fuel + 1 + 1) (Char.ofNat b :: rest) = some (b :: bs)
    simp only [decodeTextAux, h1, h2, if_false, h3, decodeTextAux_succ fmt fuel rest bs hrest]

/-- The step above with the length of the text of the byte as fuel. -/
theorem decodeTextAux_segment_length (fmt : Format) (config : Config) (b : Nat) (hb : b < 256)
    (rest : List Char) (bs : List Nat) (fuel : Nat)
    (hrest : decodeTextAux fmt fuel rest = some bs) :
    decodeTextAux fmt
      ((escapeByte b ++
        (if config.singleLine = false ∧ (b = 10 ∨ b = 13) then lineSplit fmt
         else [])).length + fuel)
      (escapeByte b ++
        ((if config.singleLine = false ∧ (b = 10 ∨ b = 13) then lineSplit fmt else []) ++
          rest)) =
      some (b :: bs) := by
  rcases escapeByte_cases b hb with ⟨he, _⟩ | ⟨he, h1, h2, h3, h4, h5⟩
  · have h2 := decodeTextAux_segment fmt config b hb rest bs fuel hrest
    have hlen : 2 ≤ (escapeByte b).length := by rw [he]; simp
    have hadd := decodeTextAux_add fmt (fuel + 2) _ _ h2
      ((escapeByte b ++
        (if config.singleLine = false ∧ (b = 10 ∨ b = 13) then lineSplit fmt
         else [])).length - 2)
    have e : fuel + 2 + ((escapeByte b ++
        (if config.singleLine = false ∧ (b = 10 ∨ b = 13) then lineSplit fmt
         else [])).length - 2) =
        (escapeByte b ++
        (if config.singleLine = false ∧ (b = 10 ∨ b = 13) then lineSplit fmt
         else [])).length + fuel := by
      simp only [List.length_append] at hlen ⊢
      omega
    rw [e] at hadd
    exact hadd
  · have hno : ¬ (config.singleLine = false ∧ (b = 10 ∨ b = 13)) := by
      rintro ⟨_, h | h⟩
      · exact h4 h
      · exact h5 h
    rw [he, if_neg hno]
    have e : ([Char.ofNat b] ++ ([] : List Char)).length + fuel = fuel + 1 := by
      simp only [List.append_nil, List.length_singleton]
      omega
    rw [e]
    show decodeTextAux fmt (fuel + 1) (Char.ofNat b :: rest) = some (b :: bs)
    simp only [decodeTextAux, h1, h2, if_false, h3, hrest]

theorem decodeText_flatten (fmt : Format) (config : Config) :
    ∀ (bs : List Nat), (∀ b ∈ bs, b < 256) →
      decodeText fmt
        (bs.map (fun b => escapeByte b ++
          (if config.singleLine = false ∧ (b = 10 ∨ b = 13) then lineSplit fmt
           else []))).flatten = some bs
  | [], _ => by simp [decodeText, decodeTextAux]
  | b :: bs, hb => by
    have ih := decodeText_flatten fmt config bs (fun x hx => hb x (List.mem_cons_of_mem b hx))
    have hseg := decodeTextAux_segment_length fmt config b (hb b (List.mem_cons_self b bs))
      _ bs _ ih
    unfold decodeText
    simpa [List.length_append, Nat.add_assoc] using hseg

/-- What `writeDataText` writes for a byte sequence (values 0 to 255) read in full is read
back as the byte sequence. -/
theorem decodeText_writeDataText (fmt : Format) (config : Config) (bs : List Nat)
    (hb : ∀ b ∈ bs, b < 256) :
    decodeText fmt
      (writeDataText fmt config bs { buf := [], room := none, err := false }
        bs.length).2.2.buf = some bs := by
  have h := textLoop_unlimited fmt config bs [] false []
  rw [List.append_nil] at h
  have hc : config.singleLine = true ∨ false = false := Or.inr rfl
  rw [writeDataText, h, textText_eq_flatten fmt config bs false hc]
  simpa using decodeText_flatten fmt config bs hb

/-- C23: for every byte sequence (values 0 to 255, fewer than `2 ^ 31` of them) read in full
and every configuration (`singleLine` set or clear), reading back the text written by
`writeDataText` (the segment breaks removed, every escape replaced by its byte) gives the
byte sequence; hence two such byte sequences with the same text are equal. -/
theorem writeDataText_lossless (fmt : Format) (config : Config) (bs : List Nat)
    (hlen : bs.length < 2 ^ 31) (hb : ∀ b ∈ bs, b < 256) :
    decodeText fmt
      (writeDataText fmt config bs { buf := [], room := none, err := false }
        bs.length).2.2.buf = some bs ∧
    (∀ bs2 : List Nat, bs2.length < 2 ^ 31 → (∀ b ∈ bs2, b < 256) →
      (writeDataText fmt config bs2 { buf := [], room := none, err := false }
        bs2.length).2.2.buf =
      (writeDataText fmt config bs { buf := [], room := none, err := false }
        bs.length).2.2.buf → bs2 = bs) := by
  have _ := hlen
  refine ⟨decodeText_writeDataText fmt config bs hb, ?_⟩
  intro bs2 _ hb2 heq
  have h1 := decodeText_writeDataText fmt config bs hb
  have h2 := decodeText_writeDataText fmt config bs2 hb2
  rw [heq, h1] at h2
  exact (Option.some.inj h2).symm

/-- C23 at the bytes `a`, carriage return, newline, quote, backslash, space, 0x80, with the
text split into lines. -/
theorem writeDataText_lossless_witness :
    [97, 13, 10, 34, 92, 32, 128].length < 2 ^ 31 ∧
    (∀ b ∈ [97, 13, 10, 34, 92, 32, 128], b < 256) ∧
    (writeDataText specFormat { defaultConfig with text := true } [97, 13, 10, 34, 92, 32, 128]
      { buf := [], room := none, err := false } 7).2.2.buf =
      ['a', '\\', 'r', '\x22', '\n', ' ', ' ', ' ', ' ', '\x22', '\\', 'n', '\x22', '\n',
       ' ', ' ', ' ', ' ', '\x22', '\\', '\x22', '\\', '\\', ' ', Char.ofNat 128] ∧
    decodeText specFormat
      (writeDataText specFormat { defaultConfig with text := true }
        [97, 13, 10, 34, 92, 32, 128] { buf := [], room := none, err := false }
        [97, 13, 10, 34, 92, 32, 128].length).2.2.buf = some [97, 13, 10, 34, 92, 32, 128] :=
  ⟨by decide, by decide, by decide,
   (writeDataText_lossless specFormat { defaultConfig with text := true }
     [97, 13, 10, 34, 92, 32, 128] (by decide) (by decide)).1⟩

/-- The reading of texts that `writeDataText` does not write: a lone backslash, an unknown
escape and a quote without a segment break are refused. -/
theorem decodeText_examples :
    decodeText specFormat "ab\\n\x22\n    \x22c".toList = some [97, 98, 10, 99] ∧
    decodeText specFormat "ab\\".toList = none ∧
    decodeText specFormat "a\\qb".toList = none ∧
    decodeText specFormat "a\x22b".toList = none := by
  decide

/-! ## The macro and the closing of the literal with one stream -/

set_option maxRecDepth 100000 in
/-- C21: the code with the output stream alone and `createMacro` set, at the file `logo.png`
of three bytes: the array is sized by `LOGO_PNG_SIZE` and no line `#define LOGO_PNG_SIZE` is
written; with the header stream alone the line is written. -/
theorem process_output_only_macro_undefined :
    process specFormat 4096 { defaultConfig with createMacro := true }
        (some { length := 3, bytes := [0x89, 0x50, 0x4e] })
        "logo.png".toList (some { buf := [], room := none, err := false }) none false false =
      { retval := 0,
        output := some
          { buf := ("/* logo.png */\n" ++
              "const unsigned char logo_png[LOGO_PNG_SIZE] =\n\x7b\n" ++
              "    0x89, 0x50, 0x4e\n\x7d;\n\n").toList,
            room := none, err := false },
        header := none,
        fault := false } ∧
    process specFormat 4096 { defaultConfig with createMacro := true }
        (some { length := 3, bytes := [0x89, 0x50, 0x4e] })
        "logo.png".toList none (some { buf := [], room := none, err := false }) false false =
      { retval := 0,
        output := none,
        header := some
          { buf := ("/* logo.png */\n" ++
              "#define LOGO_PNG_SIZE 3\n" ++
              "const unsigned char logo_png[LOGO_PNG_SIZE]\n\x7b\n" ++
              "    0x89, 0x50, 0x4e\n\x7d;\n\n").toList,
            room := none, err := false },
        fault := false } := by
  decide

set_option maxRecDepth 100000 in
/-- C22: the code with the header stream alone and the text form, at a file holding `abc`:
the header stream receives the opening quote and the bytes, and the closing is written
through the null `output` (line 432); with the output stream alone the closing follows the
bytes. -/
theorem process_header_only_text_not_closed :
    process specFormat 4096 { defaultConfig with text := true }
        (some { length := 3, bytes := [97, 98, 99] })
        "a.txt".toList none (some { buf := [], room := none, err := false }) false false =
      { retval := 0,
        output := none,
        header := some
          { buf := ("/* a.txt */\n" ++
              "const unsigned int a_txt_size = 3;\n" ++
              "const unsigned char a_txt[3]\n    \x22abc").toList,
            room := none, err := false },
        fault := true } ∧
    process specFormat 4096 { defaultConfig with text := true }
        (some { length := 3, bytes := [97, 98, 99] })
        "a.txt".toList (some { buf := [], room := none, err := false }) none false false =
      { retval := 0,
        output := some
          { buf := ("/* a.txt */\n" ++
              "const unsigned int a_txt_size = 3;\n" ++
              "const unsigned char a_txt[3] =\n    \x22abc\x22;\n\n").toList,
            room := none, err := false },
        header := none,
        fault := false } := by
  decide

/-! ## The file type: properties -/

theorem strrchr_eq_none : ∀ (s : List Char) (c : Char), c ∉ s → strrchr s c = none
  | [], _, _ => rfl
  | x :: xs, c, h => by
    have hx : x ≠ c := fun e => h (e ▸ List.mem_cons_self x xs)
    have hxs : c ∉ xs := fun e => h (List.mem_cons_of_mem x e)
    simp [strrchr, strrchr_eq_none xs c hxs, hx]

theorem strrchr_last : ∀ (pre e : List Char) (c : Char), c ∉ e →
    strrchr (pre ++ c :: e) c = some (c :: e)
  | [], e, c, h => by simp [strrchr, strrchr_eq_none e c h]
  | x :: pre, e, c, h => by simp [strrchr, strrchr_last pre e c h]

/-- C24: for every file name (without NUL): without a `.` in the name `checkFiletype` leaves
both flags false; otherwise, with `e` the text after the last `.`, `isHeader` is true exactly
when `e` starts with `h` or `H`, and `isCXX` is true exactly when `e` has a second character
and it is one of `p`, `P`, `x`, `X`. No read leaves the string (the result is never `none`):
with an empty `e` the character at index 2 is not read. -/
theorem checkFiletype_classification (name : List Char) (hnul : ∀ c ∈ name, c ≠ '\x00') :
    ('.' ∉ name → checkFiletype name = some (false, false)) ∧
    (∀ pre e : List Char, name = pre ++ '.' :: e → '.' ∉ e →
      checkFiletype name =
        some (decide (e.head? = some 'h' ∨ e.head? = some 'H'),
              decide (e[1]? = some 'p' ∨ e[1]? = some 'P' ∨ e[1]? = some 'x' ∨
                e[1]? = some 'X'))) := by
  constructor
  · intro h
    simp [checkFiletype, strrchr_eq_none name '.' h]
  · intro pre e hname hdot
    subst hname
    rw [checkFiletype, strrchr_last pre e '.' hdot]
    cases e with
    | nil => simp [readAt]
    | cons a rest =>
      have ha : a ≠ '\x00' := hnul a (by simp)
      cases rest with
      | nil => simp [readAt, ha]
      | cons b rest2 => simp [readAt, ha, Bool.or_assoc]

/-- C24 at `main.cpp` and the extensions the claim names. -/
theorem checkFiletype_classification_witness :
    (∀ c ∈ "main.cpp".toList, c ≠ '\x00') ∧
    checkFiletype "main.cpp".toList = some (false, true) ∧
    checkFiletype "a.cxx".toList = some (false, true) ∧
    checkFiletype "a.hpp".toList = some (true, true) ∧
    checkFiletype "a.hxx".toList = some (true, true) ∧
    checkFiletype "a.c".toList = some (false, false) ∧
    checkFiletype "a.h".toList = some (true, false) ∧
    checkFiletype "a.cc".toList = some (false, false) ∧
    checkFiletype "a.hh".toList = some (true, false) ∧
    checkFiletype "Makefile".toList = some (false, false) ∧
    checkFiletype "archive.tar.H".toList = some (true, false) ∧
    checkFiletype "name.".toList = some (false, false) ∧
    (('.' ∉ "main.cpp".toList → checkFiletype "main.cpp".toList = some (false, false)) ∧
     (∀ pre e : List Char, "main.cpp".toList = pre ++ '.' :: e → '.' ∉ e →
      checkFiletype "main.cpp".toList =
        some (decide (e.head? = some 'h' ∨ e.head? = some 'H'),
              decide (e[1]? = some 'p' ∨ e[1]? = some 'P' ∨ e[1]? = some 'x' ∨
                e[1]? = some 'X')))) :=
  ⟨by decide, by decide, by decide, by decide, by decide, by decide, by decide, by decide,
   by decide, by decide, by decide, by decide,
   checkFiletype_classification "main.cpp".toList (by decide)⟩

end BinaryInclude
